import Mathlib

/-!
Verification of the tvdatafeed protocol/session engine (tvDatafeed/main.py)
against its natural-language specification.

Shallow embedding conventions:
* Python strings are `List Char`; JSON values are the inductive `JVal`
  (numbers are modelled as integers — no claim under study involves
  fractional numerics, and floats are outside the embedding).
* The websocket, the RNG behind session-id generation, and the server's
  responses are oracle parameters threaded explicitly through the model.
* Fallible Python code returns `Option` / `Except`.
* Recursions that Python drives by mutable loops are fuel-indexed with a
  provably sufficient fuel, so every definition is executable.
-/

namespace Tv

/-! ## Basic character/string machinery -/

def isWs (c : Char) : Bool := c = ' ' || c = '\t' || c = '\n' || c = '\r'

def isDigitCh (c : Char) : Bool := 48 ≤ c.toNat && c.toNat ≤ 57

def digitChar (n : Nat) : Char := Char.ofNat (48 + n)

def digVal (c : Char) : Nat := c.toNat - 48

/-- Decimal digits of a natural number, as Python's `str(n)`.  Fuel-driven
so that it is structurally recursive; `fuel > n` always suffices. -/
def natCharsF : Nat → Nat → List Char
  | 0, _ => []
  | fuel+1, n => if n < 10 then [digitChar n] else natCharsF fuel (n / 10) ++ [digitChar (n % 10)]

def natChars (n : Nat) : List Char := natCharsF (n + 1) n

/-- Python `str(i)` for an int (as emitted by `json.dumps` for ints). -/
def intChars (i : Int) : List Char :=
  if i < 0 then '-' :: natChars i.natAbs else natChars i.toNat

/-- `pat.isPrefixOf s` written out (Python `s.startswith(pat)`). -/
def startsWithL : List Char → List Char → Bool
  | [], _ => true
  | _ :: _, [] => false
  | p :: ps, c :: cs => p = c && startsWithL ps cs

/-- Python `pat in s` (substring containment). -/
def hasSub (pat : List Char) : List Char → Bool
  | [] => startsWithL pat []
  | c :: cs => startsWithL pat (c :: cs) || hasSub pat cs

/-! ## JSON values

`json.dumps` / `json.loads` as used by `__construct_message` and
`__parse_ws_packets`.  Numbers are integers (the protocol messages under
study carry strings, ints, lists and objects); object members keep their
insertion order, as Python dicts do. -/

inductive JVal where
  | null
  | bool (b : Bool)
  | num (n : Int)
  | str (s : List Char)
  | arr (xs : List JVal)
  | obj (kvs : List (List Char × JVal))

/-- Lower-case hex digit, as Python's `'{:04x}'.format`. -/
def hexDigitCh (n : Nat) : Char :=
  if n < 10 then Char.ofNat (48 + n) else Char.ofNat (87 + n)

def hex4 (n : Nat) : List Char :=
  [hexDigitCh (n / 4096 % 16), hexDigitCh (n / 256 % 16), hexDigitCh (n / 16 % 16), hexDigitCh (n % 16)]

/-- One character escaped as by `json.dumps` with its default
`ensure_ascii=True`: the two-character escapes for quote, backslash and
the common control characters, `\u00XX` for the other controls, plain ASCII
kept as is, `\uXXXX` for non-ASCII BMP codepoints and a surrogate pair for
codepoints beyond the BMP. -/
def escChar (c : Char) : List Char :=
  if c = '"' then ['\\', '"']
  else if c = '\\' then ['\\', '\\']
  else if c = '\n' then ['\\', 'n']
  else if c = '\r' then ['\\', 'r']
  else if c = '\t' then ['\\', 't']
  else if c.toNat = 8 then ['\\', 'b']
  else if c.toNat = 12 then ['\\', 'f']
  else if c.toNat < 32 then '\\' :: 'u' :: hex4 c.toNat
  else if c.toNat < 127 then [c]
  else if c.toNat < 65536 then '\\' :: 'u' :: hex4 c.toNat
  else '\\' :: 'u' :: hex4 (55296 + (c.toNat - 65536) / 1024) ++
       '\\' :: 'u' :: hex4 (56320 + (c.toNat - 65536) % 1024)

def escStr : List Char → List Char
  | [] => []
  | c :: cs => escChar c ++ escStr cs

mutual

/-- Compact JSON serialization: `json.dumps(v, separators=(",", ":"))`. -/
def serVal : JVal → List Char
  | .null => ['n', 'u', 'l', 'l']
  | .bool b => if b then ['t', 'r', 'u', 'e'] else ['f', 'a', 'l', 's', 'e']
  | .num n => intChars n
  | .str s => '"' :: (escStr s ++ ['"'])
  | .arr xs => '[' :: (serArr xs ++ [']'])
  | .obj kvs => '{' :: (serObj kvs ++ ['}'])

def serArr : List JVal → List Char
  | [] => []
  | x :: xs => serVal x ++ serArrTail xs

def serArrTail : List JVal → List Char
  | [] => []
  | x :: xs => ',' :: (serVal x ++ serArrTail xs)

def serObj : List (List Char × JVal) → List Char
  | [] => []
  | (k, v) :: kvs => serMember k v ++ serObjTail kvs

def serObjTail : List (List Char × JVal) → List Char
  | [] => []
  | (k, v) :: kvs => ',' :: (serMember k v ++ serObjTail kvs)

def serMember (k : List Char) (v : JVal) : List Char :=
  '"' :: (escStr k ++ '"' :: ':' :: serVal v)

end

/-! ## JSON parsing (`json.loads`)

A recursive-descent parser over `List Char`, fuel-indexed for structural
recursion (the fuel chosen in `jsonLoads` dominates the recursion depth
for any input it accepts).  Restrictions of the model, matching `JVal`:
fractional/exponent numerals are rejected rather than parsed as floats,
and a `\uXXXX` escape denoting a lone surrogate is rejected (a Lean
`Char` cannot carry it); neither shape occurs in this protocol's
messages.  A leading-zero numeral such as `01` (rejected by `json.loads`)
is accepted here; the encoder never produces one. -/

def hexVal (c : Char) : Option Nat :=
  if 48 ≤ c.toNat && c.toNat ≤ 57 then some (c.toNat - 48)
  else if 97 ≤ c.toNat && c.toNat ≤ 102 then some (c.toNat - 87)
  else if 65 ≤ c.toNat && c.toNat ≤ 70 then some (c.toNat - 55)
  else none

def parse4hex : List Char → Option (Nat × List Char)
  | a :: b :: c :: d :: rest =>
    match hexVal a, hexVal b, hexVal c, hexVal d with
    | some va, some vb, some vc, some vd => some (((va * 16 + vb) * 16 + vc) * 16 + vd, rest)
    | _, _, _, _ => none
  | _ => none

def skipWs : List Char → List Char
  | [] => []
  | c :: cs => if isWs c then skipWs cs else c :: cs

/-- Greedily consume a run of decimal digits, accumulating their value. -/
def takeDigitsAcc : List Char → Nat → Nat × List Char
  | [], a => (a, [])
  | c :: cs, a => if isDigitCh c then takeDigitsAcc cs (a * 10 + digVal c) else (a, c :: cs)

def consFst (c : Char) : Option (List Char × List Char) → Option (List Char × List Char)
  | some (s, r) => some (c :: s, r)
  | none => none

/-- Decode the value of a `\uXXXX` escape, given the text after the `u`:
a plain BMP codepoint, or a high surrogate that must be followed by a
`\uYYYY` low surrogate (a lone surrogate is unrepresentable in a Lean
`Char`). -/
def uniEscape (r2 : List Char) : Option (Char × List Char) :=
  match parse4hex r2 with
  | none => none
  | some (n, r3) =>
    if 55296 ≤ n ∧ n ≤ 56319 then
      match r3 with
      | c1 :: c2 :: r4 =>
        if c1 = '\\' ∧ c2 = 'u' then
          match parse4hex r4 with
          | some (m, r5) =>
            if 56320 ≤ m ∧ m ≤ 57343 then
              some (Char.ofNat (65536 + (n - 55296) * 1024 + (m - 56320)), r5)
            else none
          | none => none
        else none
      | _ => none
    else if 56320 ≤ n ∧ n ≤ 57343 then none
    else some (Char.ofNat n, r3)

/-- Body of a JSON string, assuming the opening quote has been consumed:
returns the decoded characters and the text after the closing quote. -/
def pStrBody : Nat → List Char → Option (List Char × List Char)
  | 0, _ => none
  | fuel+1, s =>
    match s with
    | [] => none
    | c :: r =>
      if c = '"' then some ([], r)
      else if c = '\\' then
        match r with
        | [] => none
        | e :: r2 =>
          if e = '"' then consFst '"' (pStrBody fuel r2)
          else if e = '\\' then consFst '\\' (pStrBody fuel r2)
          else if e = '/' then consFst '/' (pStrBody fuel r2)
          else if e = 'b' then consFst (Char.ofNat 8) (pStrBody fuel r2)
          else if e = 'f' then consFst (Char.ofNat 12) (pStrBody fuel r2)
          else if e = 'n' then consFst '\n' (pStrBody fuel r2)
          else if e = 'r' then consFst '\r' (pStrBody fuel r2)
          else if e = 't' then consFst '\t' (pStrBody fuel r2)
          else if e = 'u' then
            match uniEscape r2 with
            | some (ch, r3) => consFst ch (pStrBody fuel r3)
            | none => none
          else none
      else if c.toNat < 32 then none
      else consFst c (pStrBody fuel r)

/-- A JSON numeral (integral in this model).  The caller has ensured the
first character is a digit (after an optional minus consumed as `neg`). -/
def pNum (neg : Bool) (s : List Char) : Option (JVal × List Char) :=
  match s with
  | [] => none
  | c :: _ =>
    if isDigitCh c then
      match takeDigitsAcc s 0 with
      | (n, r) =>
        match r with
        | [] => some (.num (if neg then -(n : Int) else (n : Int)), [])
        | c2 :: r2 =>
          if c2 = '.' || c2 = 'e' || c2 = 'E' then none
          else some (.num (if neg then -(n : Int) else (n : Int)), c2 :: r2)
    else none

mutual

def pVal : Nat → List Char → Option (JVal × List Char)
  | 0, _ => none
  | fuel+1, s =>
    match skipWs s with
    | [] => none
    | c :: r =>
      if isDigitCh c then pNum false (c :: r)
      else
        match c :: r with
        | 'n' :: 'u' :: 'l' :: 'l' :: r2 => some (.null, r2)
        | 't' :: 'r' :: 'u' :: 'e' :: r2 => some (.bool true, r2)
        | 'f' :: 'a' :: 'l' :: 's' :: 'e' :: r2 => some (.bool false, r2)
        | '"' :: r2 =>
          match pStrBody (r2.length + 1) r2 with
          | some (t, r3) => some (.str t, r3)
          | none => none
        | '-' :: r2 => pNum true r2
        | '[' :: r2 => pArrStart fuel r2
        | '{' :: r2 => pObjStart fuel r2
        | _ => none

def pArrStart : Nat → List Char → Option (JVal × List Char)
  | 0, _ => none
  | fuel+1, s =>
    match skipWs s with
    | [] => none
    | c :: r =>
      if c = ']' then some (.arr [], r)
      else
        match pVal fuel (c :: r) with
        | some (v, r2) => pArrRest fuel [v] r2
        | none => none

def pArrRest : Nat → List JVal → List Char → Option (JVal × List Char)
  | 0, _, _ => none
  | fuel+1, acc, s =>
    match skipWs s with
    | ',' :: r =>
      match pVal fuel r with
      | some (v, r2) => pArrRest fuel (acc ++ [v]) r2
      | none => none
    | ']' :: r => some (.arr acc, r)
    | _ => none

def pObjStart : Nat → List Char → Option (JVal × List Char)
  | 0, _ => none
  | fuel+1, s =>
    match skipWs s with
    | '}' :: r => some (.obj [], r)
    | '"' :: r => pObjKV fuel [] r
    | _ => none

def pObjKV : Nat → List (List Char × JVal) → List Char → Option (JVal × List Char)
  | 0, _, _ => none
  | fuel+1, acc, s =>
    match pStrBody (s.length + 1) s with
    | some (k, r2) =>
      match skipWs r2 with
      | ':' :: r3 =>
        match pVal fuel r3 with
        | some (v, r4) => pObjRest fuel (acc ++ [(k, v)]) r4
        | none => none
      | _ => none
    | none => none

def pObjRest : Nat → List (List Char × JVal) → List Char → Option (JVal × List Char)
  | 0, _, _ => none
  | fuel+1, acc, s =>
    match skipWs s with
    | ',' :: r =>
      match skipWs r with
      | '"' :: r2 => pObjKV fuel acc r2
      | _ => none
    | '}' :: r => some (.obj acc, r)
    | _ => none

end

/-- Auxiliary predicate for the round-trip lemmas: the text that follows
a serialized value inside a larger document is empty or starts with one
of the three closing tokens, so it can never extend a numeric token. -/
def TokEnd : List Char → Prop
  | [] => True
  | c :: _ => c = ',' ∨ c = ']' ∨ c = '}'

/-- `json.loads`: parse one JSON document, requiring the whole input to be
consumed up to trailing whitespace. -/
def jsonLoads (s : List Char) : Option JVal :=
  match pVal (2 * s.length + 4) s with
  | some (v, r) => if skipWs r = [] then some v else none
  | none => none

/-! ## Frame codec (`__create_message` and `__parse_ws_packets`) -/

/-- `__construct_message`: `json.dumps({"m": func, "p": param_list}, separators=(",", ":"))`. -/
def constructMessage (func : List Char) (paramList : List JVal) : List Char :=
  serVal (.obj [(['m'], .str func), (['p'], .arr paramList)])

/-- `__prepend_header`: `"~m~" + str(len(st)) + "~m~" + st`. -/
def prependHeader (st : List Char) : List Char :=
  '~' :: 'm' :: '~' :: (natChars st.length ++ '~' :: 'm' :: '~' :: st)

/-- `__create_message`. -/
def createMessage (func : List Char) (paramList : List JVal) : List Char :=
  prependHeader (constructMessage func paramList)

/-- One leftmost match of the regex `~m~\d+~m~` anchored at the head of
the input, returning the text after the match.  Python's backtracking
over `\d+` is equivalent to this greedy form: giving back a digit would
leave a digit where `~` is required. -/
def matchFrameMarker : List Char → Option (List Char)
  | '~' :: 'm' :: '~' :: c :: rest =>
    if isDigitCh c then
      match takeDigitsAcc (c :: rest) 0 with
      | (_, '~' :: 'm' :: '~' :: r) => some r
      | _ => none
    else none
  | _ => none

/-- `re.split(r'~m~\d+~m~', raw)`: scan left to right, cutting at each
marker match.  Fuel-driven; `fuel > length` suffices since every step
consumes at least one character. -/
def splitFramesF : Nat → List Char → List Char → List (List Char)
  | 0, s, acc => [acc.reverse ++ s]
  | fuel+1, s, acc =>
    match s with
    | [] => [acc.reverse]
    | c :: cs =>
      match matchFrameMarker (c :: cs) with
      | some rest => acc.reverse :: splitFramesF fuel rest []
      | none => splitFramesF fuel cs (c :: acc)

def splitFrames (s : List Char) : List (List Char) := splitFramesF (s.length + 1) s []

def heartbeatPre : List Char := ['~', 'h', '~']

/-- `__parse_ws_packets`: split on the frame marker, drop empty fragments
and heartbeat fragments, best-effort JSON-parse the rest (fragments that
fail to parse are silently dropped). -/
def parseWsPackets (raw : List Char) : List JVal :=
  (splitFrames raw).filterMap fun part =>
    if part = [] then none
    else if startsWithL heartbeatPre part then none
    else jsonLoads part

/-- Whether the frame-marker regex matches anywhere in the text. -/
def hasMarker : List Char → Bool
  | [] => false
  | c :: cs => (matchFrameMarker (c :: cs)).isSome || hasMarker cs

/-! ## Symbol formatting (`__format_symbol`)

The Python parameter `contract` is annotated `int | None` but the code
guards with `isinstance(contract, int)` and raises for any other passed
value; `ContractArg.nonInt` stands for a non-integer argument. -/

inductive ContractArg where
  | int (n : Int)
  | nonInt
  deriving DecidableEq, Repr

def formatSymbol (symbol exchange : List Char) (contract : Option ContractArg) :
    Except (List Char) (List Char) :=
  if symbol.contains ':' then .ok symbol
  else
    match contract with
    | none => .ok (exchange ++ ':' :: symbol)
    | some (.int n) => .ok (exchange ++ ':' :: symbol ++ (intChars n ++ ['!']))
    | some .nonInt => .error ("not a valid contract".toList)

/-! ## Chunk plan (range-mode loop of `get_hist`, lines 994-1038)

Time is modelled in seconds (`datetime` arithmetic is exact), so the step
`timedelta(days=chunk_days)` is `chunk_days * 86400`.  The fuel dominates
the chunk count whenever `chunk_days ≥ 1`. -/

def chunkPlanF : Nat → Int → Int → Int → List (Int × Int)
  | 0, _, _, _ => []
  | fuel+1, s, e, d =>
    if s < e then (s, min (s + d * 86400) e) :: chunkPlanF fuel (min (s + d * 86400) e) e d
    else []

def chunkPlan (s e d : Int) : List (Int × Int) := chunkPlanF ((e - s).toNat + 1) s e d

/-! ## Bar-series merge (`get_hist`, lines 1041-1044)

A DataFrame row is abstracted to its timestamp index plus an opaque
payload standing for the OHLCV columns.  `pd.concat` is `flatten`,
`~df.index.duplicated(keep='first')` is `dedupFirst`, `sort_index` is a
comparison sort on the (now unique) index — insertion sort here, which
agrees with any correct sort once keys are unique — and the final date
filter is `filter`. -/

structure Bar where
  ts : Int
  row : Int
  deriving DecidableEq, Repr

def dedupFirst : List Bar → List Int → List Bar
  | [], _ => []
  | b :: bs, seen =>
    if seen.contains b.ts then dedupFirst bs seen else b :: dedupFirst bs (b.ts :: seen)

def insertBar (b : Bar) : List Bar → List Bar
  | [] => [b]
  | x :: xs => if b.ts ≤ x.ts then b :: x :: xs else x :: insertBar b xs

def sortBars : List Bar → List Bar
  | [] => []
  | b :: bs => insertBar b (sortBars bs)

def mergeChunks (chunks : List (List Bar)) (lo hi : Int) : List Bar :=
  (sortBars (dedupFirst chunks.flatten [])).filter fun b => decide (lo ≤ b.ts ∧ b.ts ≤ hi)

/-! ## Bar assembly (`__create_df`, lines 814-850)

Packets are parsed JSON values.  Exceptions the Python code catches
become `Option`-level skips; the `TypeError`s it does NOT catch (a
non-subscriptable `packet["p"]`, a non-iterable `series["s"]`) surface as
`Except.error`, making `createDf` return `none` (exception propagates).
`datetime.fromtimestamp` is kept as the raw numeric timestamp (a Python
`bool` counts as an int there); `0.0` is the numeric zero of the model. -/

structure BarRow where
  ts : Int
  fields : List JVal
  oi : Option JVal

structure Df where
  cols : List (List Char)
  index : List Int
  rows : List (List JVal)

def emptyDf : Df := ⟨[], [], []⟩

def jGet : List (List Char × JVal) → List Char → Option JVal
  | [], _ => none
  | (k, v) :: kvs, key => if k = key then some v else jGet kvs key

/-- `isinstance(packet, dict) and packet.get("m") in ("timescale_update", "du")`. -/
def isUpdatePacket (p : JVal) : Bool :=
  match p with
  | .obj kvs =>
    match jGet kvs ("m".toList) with
    | some (.str m) => m = ("timescale_update".toList) || m = ("du".toList)
    | _ => false
  | _ => false

/-- `datetime.fromtimestamp(v[0])`, kept as the numeric instant; `none`
models the caught `TypeError`/`ValueError` on a non-numeric argument. -/
def tsOf : JVal → Option Int
  | .num n => some n
  | .bool b => some (if b then 1 else 0)
  | _ => none

/-- One entry of the series' `s` list: `bar["v"]` must be a dict member
holding a tuple of at least 5 entries with a numeric timestamp; every
failure mode here is a caught exception, i.e. the bar is skipped. -/
def extractBar (bar : JVal) : Option BarRow :=
  match bar with
  | .obj kvs =>
    match jGet kvs ("v".toList) with
    | some (.arr ws) =>
      match ws with
      | w0 :: w1 :: w2 :: w3 :: w4 :: rest =>
        match tsOf w0 with
        | some t =>
          some { ts := t,
                 fields := [w1, w2, w3, w4, (rest.get? 0).getD (.num 0)],
                 oi := match rest.get? 1 with
                       | some .null => none
                       | some x => some x
                       | none => none }
        | none => none
      | _ => none
    | some _ => none
    | none => none
  | _ => none

/-- `packet["p"][1]`: `.ok none` is a caught exception (packet skipped),
`.error` the uncaught `TypeError` on a non-subscriptable `p`. -/
def pElem1 : JVal → Except Unit (Option JVal)
  | .arr xs => .ok (xs.get? 1)
  | .str _ => .ok none
  | .obj _ => .ok none
  | _ => .error ()

/-- `p1.get("s1", p1.get("sds_1", {}))`; `none` is the caught
`AttributeError` on a non-dict. -/
def seriesFrom : JVal → Option JVal
  | .obj kvs => some (((jGet kvs ("s1".toList)).orElse fun _ =>
      jGet kvs ("sds_1".toList)).getD (.obj []))
  | _ => none

/-- Iterating `series.get("s", [])`: a string or dict iterates into
elements on which `bar["v"]` raises a caught `TypeError` (so contributes
nothing); a non-iterable raises an uncaught `TypeError`. -/
def barsOf : JVal → Except Unit (List JVal)
  | .arr bs => .ok bs
  | .str _ => .ok []
  | .obj _ => .ok []
  | _ => .error ()

def packetRows (p : JVal) : Except Unit (List BarRow) :=
  if isUpdatePacket p then
    match p with
    | .obj kvs =>
      match jGet kvs ("p".toList) with
      | none => .ok []
      | some pv =>
        match pElem1 pv with
        | .error _ => .error ()
        | .ok none => .ok []
        | .ok (some p1) =>
          match seriesFrom p1 with
          | none => .ok []
          | some series =>
            match series with
            | .obj kvs3 =>
              match barsOf ((jGet kvs3 ("s".toList)).getD (.arr [])) with
              | .error _ => .error ()
              | .ok bs => .ok (bs.filterMap extractBar)
            | _ => .ok []
    | _ => .ok []
  else .ok []

def collectRows : List JVal → Except Unit (List BarRow)
  | [] => .ok []
  | p :: ps =>
    match packetRows p, collectRows ps with
    | .ok rs, .ok rest => .ok (rs ++ rest)
    | .error _, _ => .error ()
    | .ok _, .error _ => .error ()

/-- The value stored in the `OI` column (`None` for a bar without one). -/
def oiCell : Option JVal → JVal
  | none => .null
  | some x => x

/-- `__create_df`: `none` models an uncaught exception. -/
def createDf (packets : List JVal) (symbol : List Char) : Option Df :=
  match collectRows packets with
  | .error _ => none
  | .ok rows =>
    if rows.isEmpty then some emptyDf
    else
      some { cols := [("symbol".toList), ("open".toList), ("high".toList), ("low".toList),
                      ("close".toList), ("volume".toList)] ++
                     (if rows.any fun r => r.oi.isSome then [("OI".toList)] else []),
             index := rows.map (·.ts),
             rows := rows.map fun r =>
               .str symbol :: (r.fields ++
                 (if rows.any fun r2 => r2.oi.isSome then [oiCell r.oi] else [])) }

/-! ## Receive loop and per-chunk retry (`_fetch_range` lines 1096-1113,
`get_hist` lines 1010-1022)

The frames successive `ws.recv()` calls would deliver are an oracle list;
exhausting it models the receive call raising (timeout / reset), which the
code swallows, ending the loop with whatever was accumulated. -/

def seriesCompletedM : List Char := "series_completed".toList

def symbolErrorM : List Char := "symbol_error".toList

def recvLoop : List (List Char) → List Char
  | [] => []
  | r :: rs =>
    r ++ '\n' :: (if hasSub seriesCompletedM r || hasSub symbolErrorM r then [] else recvLoop rs)

/-- One chunk fetch at the data level: receive loop, frame parse, bar
assembly (`_fetch_range` after a successful auth check). -/
def fetchChunkDf (stream : List (List Char)) (symbol : List Char) : Option Df :=
  createDf (parseWsPackets (recvLoop stream)) symbol

/-- The `for attempt in range(1, 4)` retry loop around one chunk, with the
number of attempts actually made.  A new attempt is made exactly when the
previous result was an empty frame (`df_chunk.empty`). -/
def chunkAttempts (f : Nat → Df) : Df × Nat :=
  if (f 1).rows.isEmpty then
    if (f 2).rows.isEmpty then (f 3, 3) else (f 2, 2)
  else (f 1, 1)

/-- The range-mode chunk walk of `get_hist` (lines 994-1039): windows of
`chunk_days` days, 3 attempts per chunk, `consecutive_empty` streak with
early abort at 3, accumulating non-empty chunk frames into `df_list`.
`fetch i a` is the frame attempt `a` on chunk `i` produces. -/
def runChunksF : Nat → (Nat → Nat → Df) → Int → Int → Int → Nat → Nat → List Df → List Df
  | 0, _, _, _, _, _, _, acc => acc
  | fuel+1, fetch, cur, e, d, idx, streak, acc =>
    if cur < e then
      let cend := min (cur + d * 86400) e
      let df := (chunkAttempts (fetch idx)).1
      if df.rows.isEmpty then
        if streak + 1 ≥ 3 then acc
        else runChunksF fuel fetch cend e d (idx + 1) (streak + 1) acc
      else runChunksF fuel fetch cend e d (idx + 1) 0 (acc ++ [df])
    else acc

/-! ## Session identity, auth check and connection lifecycle
(`__generate_session`, `__generate_chart_session`, `__check_auth`,
`_fetch_range` lines 1070-1094)

The RNG behind `random.choice(string.ascii_lowercase)` is an oracle
stream of letters consumed at an explicit position; a session identifier
is the fixed prefix plus the 12 letters drawn.  Connections are numbered
in the order they are opened so the server's behaviour (auth rejection,
frames delivered) can be an oracle indexed by connection. -/

def lowercaseLetter (k : Fin 26) : Char := Char.ofNat (97 + k.val)

def randomString12 (letters : Nat → Fin 26) (pos : Nat) : List Char :=
  (List.range 12).map fun i => lowercaseLetter (letters (pos + i))

def generateSession (letters : Nat → Fin 26) (pos : Nat) : List Char :=
  'q' :: 's' :: '_' :: randomString12 letters pos

def generateChartSession (letters : Nat → Fin 26) (pos : Nat) : List Char :=
  'c' :: 's' :: '_' :: randomString12 letters pos

/-- Observable engine actions, for stating session/connection claims. -/
inductive Ev where
  | gen (q c : List Char)
  | connect
  | sendAuth
  | send (method : List Char) (sid : List Char)
  | close
  deriving DecidableEq, Repr

structure Env where
  letters : Nat → Fin 26
  rejectOnConn : Nat → Bool
  recoverOk : Nat → Bool
  chunkStream : Nat → List (List Char)

structure AuthSt where
  authFailed : Bool
  rngPos : Nat
  session : List Char
  chartSession : List Char
  connCount : Nat
  deriving Repr

/-- `__check_auth` on the connection numbered `conn`: short-circuits when
`_auth_failed` is set; otherwise sends the token and, on an observed
`protocol_error`, runs one recovery attempt — on success it closes the
socket, opens a fresh connection and retries recursively (note: WITHOUT
touching the session-id pair), on failure it sets `_auth_failed`. -/
def checkAuthF (env : Env) : Nat → Nat → AuthSt → Bool × List Ev × AuthSt
  | 0, _, st => (false, [], st)
  | fuel+1, conn, st =>
    if st.authFailed then (false, [], st)
    else if env.rejectOnConn conn then
      if env.recoverOk conn then
        let next := checkAuthF env fuel (conn + 1) { st with connCount := st.connCount + 1 }
        (next.1, Ev.sendAuth :: Ev.close :: Ev.connect :: next.2.1, next.2.2)
      else (false, [Ev.sendAuth], { st with authFailed := true })
    else (true, [Ev.sendAuth], st)

def handshakeSends (q c : List Char) : List Ev :=
  [.send ("chart_create_session".toList) c, .send ("quote_create_session".toList) q,
   .send ("quote_set_fields".toList) q, .send ("quote_add_symbols".toList) q,
   .send ("quote_fast_symbols".toList) q, .send ("resolve_symbol".toList) c,
   .send ("create_series".toList) c, .send ("switch_timezone".toList) c]

/-- `_fetch_range`: regenerate both session ids, open a connection, check
auth (returning the empty frame on failure), then run the handshake sends
and the receive loop, assembling the chunk's bars.  The result `none`
models an uncaught exception from `__create_df`. -/
def fetchRangeT (env : Env) (fuel : Nat) (symbol : List Char) (st : AuthSt) :
    Option Df × List Ev × AuthSt :=
  let q := generateSession env.letters st.rngPos
  let c := generateChartSession env.letters (st.rngPos + 12)
  let st1 : AuthSt := { authFailed := st.authFailed, rngPos := st.rngPos + 24,
                        session := q, chartSession := c, connCount := st.connCount + 1 }
  let a := checkAuthF env fuel st.connCount st1
  if a.1 then
    (fetchChunkDf (env.chunkStream (a.2.2.connCount - 1)) symbol,
     Ev.gen q c :: Ev.connect :: (a.2.1 ++ handshakeSends q c ++ [Ev.close]), a.2.2)
  else (some emptyDf, Ev.gen q c :: Ev.connect :: a.2.1, a.2.2)

/-- A sequence of `n` further chunk fetches, threading the engine state. -/
def runFetchSeq (env : Env) (fuel : Nat) (symbol : List Char) :
    Nat → AuthSt → List (Option Df) × AuthSt
  | 0, st => ([], st)
  | n+1, st =>
    let r := fetchRangeT env fuel symbol st
    let rest := runFetchSeq env fuel symbol n r.2.2
    (r.1 :: rest.1, rest.2)

/-- Checks that every `connect` in a trace is preceded by a session-id
generation that happened after the previous `connect` — the formal
reading of "a fresh pair is generated for every connection attempt". -/
def gensCoverConnects : List Ev → Bool → Bool
  | [], _ => true
  | Ev.gen _ _ :: tr, _ => gensCoverConnects tr true
  | Ev.connect :: tr, flag => flag && gensCoverConnects tr false
  | _ :: tr, flag => gensCoverConnects tr flag

def freshPairPerConnection (tr : List Ev) : Bool := gensCoverConnects tr false

def isGenEv : Ev → Bool
  | Ev.gen _ _ => true
  | _ => false

/-! ## Concrete scenario fixtures -/

/-- Server rejects the auth token on the first connection and recovery
fails; no data frames. -/
def envAuthFail : Env :=
  { letters := fun _ => 0, rejectOnConn := fun n => n == 0,
    recoverOk := fun _ => false, chunkStream := fun _ => [] }

/-- Server rejects the auth token on the first connection, recovery
succeeds, and the recreated connection authenticates. -/
def envRecover : Env :=
  { letters := fun _ => 0, rejectOnConn := fun n => n == 0,
    recoverOk := fun _ => true, chunkStream := fun _ => [] }

def stClean : AuthSt :=
  { authFailed := false, rngPos := 0, session := [], chartSession := [], connCount := 0 }

/-- A raw frame carrying the invalid-symbol marker. -/
def serrRaw : List Char := "xsymbol_errorx".toList

/-- One well-formed `du` packet holding a single 5-element bar tuple. -/
def c10Packets : List JVal :=
  [.obj [(("m".toList), .str ("du".toList)),
         (("p".toList), .arr [.null,
            .obj [(("s1".toList), .obj [(("s".toList),
               .arr [.obj [(("v".toList), .arr [.num 1, .num 2, .num 3, .num 4, .num 5])]])])]])]]

/-! # Theorems -/

/-! ## Symbol formatting (claims C4 and C9) -/

/-- Every string `__format_symbol` returns contains a colon. -/
theorem formatSymbol_ok_colon (s e : List Char) (c : Option ContractArg) (r : List Char)
    (h : formatSymbol s e c = .ok r) : ':' ∈ r := by
  unfold formatSymbol at h
  by_cases hc : s.contains ':' = true
  · rw [if_pos hc] at h
    injection h with h2
    subst h2
    simpa using hc
  · rw [if_neg hc] at h
    rcases c with _ | cc
    · injection h with h2
      subst h2
      simp
    · rcases cc with n | _
      · injection h with h2
        subst h2
        simp
      · exact absurd h (by simp)

/-- C4 counterexample: the code accepts the contract value `0` (and any
other integer) and returns `NASDAQ:MSFT0!`, where the claim demands a
formatting error for every integer below 1. -/
theorem formatSymbol_contract_zero_accepted :
    formatSymbol ("MSFT".toList) ("NASDAQ".toList) (some (.int 0)) =
      .ok ("NASDAQ:MSFT0!".toList) ∧
    formatSymbol ("MSFT".toList) ("NASDAQ".toList) (some (.int (-2))) =
      .ok ("NASDAQ:MSFT-2!".toList) := by
  exact ⟨rfl, rfl⟩

/-- C4 (amended): for a symbol without a colon, formatting yields
`EXCHANGE:SYMBOL` with no contract, `EXCHANGE:SYMBOL{n}!` for EVERY
integer contract `n` (zero and negative included), and a `ValueError`
exactly for a non-integer contract value. -/
theorem formatSymbol_contract_cases (s e : List Char) (n : Int) (h : s.contains ':' = false) :
    formatSymbol s e (some (.int n)) = .ok (e ++ ':' :: s ++ (intChars n ++ ['!'])) ∧
    formatSymbol s e none = .ok (e ++ ':' :: s) ∧
    formatSymbol s e (some .nonInt) = .error ("not a valid contract".toList) := by
  have h2 : ':' ∉ s := by simpa using h
  refine ⟨?_, ?_, ?_⟩ <;> simp [formatSymbol, h2]

theorem formatSymbol_contract_cases_witness :
    formatSymbol ("ES".toList) ("CME".toList) (some (.int (-1))) = .ok ("CME:ES-1!".toList) :=
  (formatSymbol_contract_cases ("ES".toList) ("CME".toList) (-1) (by rfl)).1.trans (by rfl)

/-- C9: `__format_symbol` is idempotent on every input it accepts —
whatever it returns contains a colon, so a second application passes it
through unchanged. -/
theorem formatSymbol_idem (s e : List Char) (c : Option ContractArg) (r : List Char)
    (h : formatSymbol s e c = .ok r) : formatSymbol r e c = .ok r := by
  have hr : ':' ∈ r := formatSymbol_ok_colon s e c r h
  unfold formatSymbol
  rw [if_pos (by simpa using hr)]

theorem formatSymbol_idem_witness :
    formatSymbol ("NSE:INFY".toList) ("NSE".toList) none = .ok ("NSE:INFY".toList) :=
  formatSymbol_idem ("INFY".toList) ("NSE".toList) none ("NSE:INFY".toList) rfl

/-! ## Chunk plan (claim C3) -/

theorem chunkPlanF_nil (fuel : Nat) (s e d : Int) (h : ¬ s < e) :
    chunkPlanF fuel s e d = [] := by
  cases fuel <;> simp [chunkPlanF, h]

/-- Window facts for the fuel-indexed chunk walk, by induction on fuel. -/
theorem chunkPlanF_spec (e d : Int) (hd : 1 ≤ d) :
    ∀ fuel s, s < e → (e - s).toNat < fuel →
      ((chunkPlanF fuel s e d).map Prod.fst).head? = some s ∧
      ((chunkPlanF fuel s e d).map Prod.snd).getLast? = some e ∧
      List.Chain' (fun w w2 => w.2 = w2.1) (chunkPlanF fuel s e d) ∧
      (chunkPlanF fuel s e d).Pairwise (fun w w2 => w.2 ≤ w2.1) ∧
      (∀ w ∈ chunkPlanF fuel s e d, s ≤ w.1 ∧ w.1 < w.2 ∧ w.2 - w.1 ≤ d * 86400) ∧
      (∀ w ∈ (chunkPlanF fuel s e d).dropLast, w.2 - w.1 = d * 86400) ∧
      (∀ t : Int, (s ≤ t ∧ t < e) ↔ ∃ w ∈ chunkPlanF fuel s e d, w.1 ≤ t ∧ t < w.2) := by
  intro fuel
  induction fuel with
  | zero => intro s hs hf; omega
  | succ fuel ih =>
    intro s hs hf
    by_cases hm : min (s + d * 86400) e < e
    · have hmeq : min (s + d * 86400) e = s + d * 86400 := by omega
      have htail := ih (s + d * 86400) (by omega) (by omega)
      obtain ⟨ih1, ih2, ih3, ih4, ih5, ih6, ih7⟩ := htail
      have hplan : chunkPlanF (fuel + 1) s e d =
          (s, s + d * 86400) :: chunkPlanF fuel (s + d * 86400) e d := by
        simp only [chunkPlanF, hmeq, if_pos hs]
      obtain ⟨⟨wa, wb⟩, W2, hW2⟩ :
          ∃ w W2, chunkPlanF fuel (s + d * 86400) e d = w :: W2 := by
        cases hWc : chunkPlanF fuel (s + d * 86400) e d with
        | nil => rw [hWc] at ih1; simp at ih1
        | cons w W2 => exact ⟨w, W2, rfl⟩
      have hwa : wa = s + d * 86400 := by
        rw [hW2] at ih1; simpa using ih1
      rw [hplan, hW2]
      rw [hW2] at ih1 ih2 ih3 ih4 ih5 ih6 ih7
      refine ⟨by simp, ?_, ?_, ?_, ?_, ?_, ?_⟩
      · simpa [List.getLast?_cons_cons] using ih2
      · rw [List.chain'_cons']
        exact ⟨by simpa [hwa] using fun _ => rfl, ih3⟩
      · rw [List.pairwise_cons]
        refine ⟨?_, ih4⟩
        intro w2 hw2
        have := ih5 w2 hw2
        omega
      · intro w hw
        rw [List.mem_cons] at hw
        rcases hw with rfl | hw
        · refine ⟨le_refl s, by simp <;> omega, by simp <;> omega⟩
        · have := ih5 w hw
          omega
      · intro w hw
        rw [List.dropLast_cons₂, List.mem_cons] at hw
        rcases hw with rfl | hw
        · simp
        · exact ih6 w hw
      · intro t
        constructor
        · rintro ⟨hts, hte⟩
          by_cases htm : t < s + d * 86400
          · exact ⟨(s, s + d * 86400), by simp, by simpa using ⟨hts, htm⟩⟩
          · obtain ⟨w, hw, hw2⟩ := (ih7 t).mp ⟨by omega, hte⟩
            exact ⟨w, by simp [hw], hw2⟩
        · rintro ⟨w, hw, hw1, hw2⟩
          rw [List.mem_cons] at hw
          rcases hw with rfl | hw
          · simp only [Prod.fst, Prod.snd] at hw1 hw2
            constructor
            · exact hw1
            · omega
          · have h1 := (ih7 t).mpr ⟨w, by simp [hw], hw1, hw2⟩
            omega
    · have hmin : min (s + d * 86400) e = e := by omega
      have hplan : chunkPlanF (fuel + 1) s e d = [(s, e)] := by
        simp only [chunkPlanF, hmin, if_pos hs]
        rw [chunkPlanF_nil fuel e e d (by omega)]
      rw [hplan]
      refine ⟨by simp, by simp, by simp, by simp, ?_, by simp, ?_⟩
      · intro w hw
        rw [List.mem_singleton] at hw
        subst hw
        refine ⟨le_refl s, hs, by simp <;> omega⟩
      · intro t
        constructor
        · rintro ⟨hts, hte⟩
          exact ⟨(s, e), by simp, hts, hte⟩
        · rintro ⟨w, hw, hw1, hw2⟩
          rw [List.mem_singleton] at hw
          subst hw
          exact ⟨hw1, hw2⟩


/-- C3: in range mode the chunk windows walked by `get_hist` are
contiguous (each window ends where the next starts), non-overlapping,
start at `start_date`, end at `end_date`, cover exactly
`[start_date, end_date)`, and every window spans `chunk_days` days except
possibly the last, which is truncated to `end_date` (and never longer). -/
theorem chunkPlan_windows (s e d : Int) (h1 : s < e) (hd : 1 ≤ d) :
    chunkPlan s e d ≠ [] ∧
    ((chunkPlan s e d).map Prod.fst).head? = some s ∧
    ((chunkPlan s e d).map Prod.snd).getLast? = some e ∧
    List.Chain' (fun w w2 => w.2 = w2.1) (chunkPlan s e d) ∧
    (chunkPlan s e d).Pairwise (fun w w2 => w.2 ≤ w2.1) ∧
    (∀ w ∈ chunkPlan s e d, w.1 < w.2 ∧ w.2 - w.1 ≤ d * 86400) ∧
    (∀ w ∈ (chunkPlan s e d).dropLast, w.2 - w.1 = d * 86400) ∧
    (∀ t : Int, (s ≤ t ∧ t < e) ↔ ∃ w ∈ chunkPlan s e d, w.1 ≤ t ∧ t < w.2) := by
  obtain ⟨c1, c2, c3, c4, c5, c6, c7⟩ :=
    chunkPlanF_spec e d hd ((e - s).toNat + 1) s h1 (by omega)
  unfold chunkPlan
  refine ⟨?_, c1, c2, c3, c4, fun w hw => ⟨(c5 w hw).2.1, (c5 w hw).2.2⟩, c6, c7⟩
  intro hn
  rw [hn] at c1
  simp at c1

theorem chunkPlan_windows_witness :
    chunkPlan 0 200000 1 ≠ [] ∧
    ((chunkPlan 0 200000 1).map Prod.fst).head? = some 0 :=
  ⟨(chunkPlan_windows 0 200000 1 (by decide) (by decide)).1,
   (chunkPlan_windows 0 200000 1 (by decide) (by decide)).2.1⟩

/-! ## Retry loop and early abort (claim C7) -/

/-- When all three attempts of a chunk are empty, the retry loop performs
all three and hands back the (empty) third result. -/
theorem chunkAttempts_allEmpty (f : Nat → Df) (h1 : (f 1).rows = []) (h2 : (f 2).rows = []) :
    chunkAttempts f = (f 3, 3) := by
  simp [chunkAttempts, h1, h2]

theorem runChunksF_allfail (fetch : Nat → Nat → Df) (e d : Int) :
    ∀ fuel (cur : Int) idx streak (acc : List Df), streak ≤ 2 →
      (∀ k, k < 3 - streak → ∀ a, (fetch (idx + k) a).rows = []) →
      runChunksF fuel fetch cur e d idx streak acc = acc := by
  intro fuel
  induction fuel with
  | zero => intro cur idx streak acc hst hk; rfl
  | succ fuel ih =>
    intro cur idx streak acc hst hk
    by_cases hc : cur < e
    · have h0 := hk 0 (by omega)
      simp only [Nat.add_zero] at h0
      have hempty : ((chunkAttempts (fetch idx)).1).rows = [] := by
        rw [chunkAttempts_allEmpty (fetch idx) (h0 1) (h0 2)]
        exact h0 3
      by_cases hs3 : streak + 1 ≥ 3
      · simp only [runChunksF]
        simp [hc, hempty, hs3]
      · have step : runChunksF (fuel + 1) fetch cur e d idx streak acc =
            runChunksF fuel fetch (min (cur + d * 86400) e) e d (idx + 1) (streak + 1) acc := by
          simp only [runChunksF]
          simp [hc, hempty, hs3]
        rw [step]
        apply ih
        · omega
        · intro k hk2 a
          have h3 := hk (k + 1) (by omega) a
          rwa [show idx + (k + 1) = idx + 1 + k by omega] at h3
    · simp only [runChunksF]
      simp [hc]

/-- C7: once three consecutive chunks each fail all three attempts, the
range scheduler stops walking the remaining plan and leaves the
accumulated per-chunk frames exactly as they were (they become the
returned data); the model is a total function, so no exception arises. -/
theorem runChunks_three_failed_abort (fetch : Nat → Nat → Df) (cur e d : Int)
    (idx : Nat) (acc : List Df) (fuel : Nat)
    (h1 : ∀ a, (fetch idx a).rows = [])
    (h2 : ∀ a, (fetch (idx + 1) a).rows = [])
    (h3 : ∀ a, (fetch (idx + 2) a).rows = []) :
    runChunksF fuel fetch cur e d idx 0 acc = acc := by
  apply runChunksF_allfail
  · omega
  · intro k hk a
    interval_cases k
    · simpa using h1 a
    · exact h2 a
    · exact h3 a

theorem runChunks_three_failed_abort_witness :
    runChunksF 9 (fun _ _ => emptyDf) 0 259200 1 1 0 [Df.mk [] [7] [[JVal.num 7]]] =
      [Df.mk [] [7] [[JVal.num 7]]] :=
  runChunks_three_failed_abort (fun _ _ => emptyDf) 0 259200 1 1
    [Df.mk [] [7] [[JVal.num 7]]] 9 (fun _ => rfl) (fun _ => rfl) (fun _ => rfl)

/-! ## Merge of chunk series (claim C2) -/

theorem mem_dedupFirst (l : List Bar) :
    ∀ seen b, b ∈ dedupFirst l seen → b ∈ l ∧ b.ts ∉ seen := by
  induction l with
  | nil => intro seen b h; simp [dedupFirst] at h
  | cons a l ih =>
    intro seen b h
    by_cases hs : a.ts ∈ seen
    · rw [dedupFirst, if_pos (show seen.contains a.ts = true by simpa using hs)] at h
      have h2 := ih seen b h
      exact ⟨List.mem_cons_of_mem a h2.1, h2.2⟩
    · rw [dedupFirst, if_neg (show ¬ seen.contains a.ts = true by simpa using hs)] at h
      rw [List.mem_cons] at h
      rcases h with rfl | h
      · exact ⟨List.mem_cons_self _ _, hs⟩
      · have h2 := ih _ b h
        refine ⟨List.mem_cons_of_mem a h2.1, ?_⟩
        intro hin
        exact h2.2 (List.mem_cons_of_mem _ hin)

theorem dedupFirst_key_nodup (l : List Bar) :
    ∀ seen, ((dedupFirst l seen).map Bar.ts).Nodup := by
  induction l with
  | nil => intro seen; simp [dedupFirst]
  | cons a l ih =>
    intro seen
    by_cases hs : a.ts ∈ seen
    · rw [dedupFirst, if_pos (show seen.contains a.ts = true by simpa using hs)]
      exact ih seen
    · rw [dedupFirst, if_neg (show ¬ seen.contains a.ts = true by simpa using hs)]
      rw [List.map_cons, List.nodup_cons]
      refine ⟨?_, ih _⟩
      intro hmem
      rw [List.mem_map] at hmem
      obtain ⟨b, hb, hbts⟩ := hmem
      exact (mem_dedupFirst l _ b hb).2 (by simp [hbts])

theorem mem_dedupFirst_of_agree (l : List Bar)
    (hagree : ∀ a ∈ l, ∀ b ∈ l, a.ts = b.ts → a = b) :
    ∀ seen b, b ∈ l → b.ts ∉ seen → b ∈ dedupFirst l seen := by
  induction l with
  | nil => intro seen b h; simp at h
  | cons a l ih =>
    intro seen b hb hseen
    have hagree2 : ∀ x ∈ l, ∀ y ∈ l, x.ts = y.ts → x = y := fun x hx y hy =>
      hagree x (List.mem_cons_of_mem a hx) y (List.mem_cons_of_mem a hy)
    by_cases hts : b.ts = a.ts
    · have hba : b = a := hagree b hb a (List.mem_cons_self a l) hts
      rw [dedupFirst,
        if_neg (show ¬ seen.contains a.ts = true by simp; intro hc; exact hseen (hba ▸ hts ▸ hc))]
      rw [hba]
      exact List.mem_cons_self _ _
    · rw [List.mem_cons] at hb
      rcases hb with rfl | hb
      · exact absurd rfl hts
      · by_cases hs : a.ts ∈ seen
        · rw [dedupFirst, if_pos (show seen.contains a.ts = true by simpa using hs)]
          exact ih hagree2 seen b hb hseen
        · rw [dedupFirst, if_neg (show ¬ seen.contains a.ts = true by simpa using hs)]
          refine List.mem_cons_of_mem a (ih hagree2 _ b hb ?_)
          intro hin
          rw [List.mem_cons] at hin
          rcases hin with h | h
          · exact hts h
          · exact hseen h

theorem dedupFirst_eq_self (l : List Bar) :
    ∀ seen, (l.map Bar.ts).Nodup → (∀ b ∈ l, b.ts ∉ seen) → dedupFirst l seen = l := by
  induction l with
  | nil => intro seen _ _; rfl
  | cons a l ih =>
    intro seen hnd hdisj
    have ha : a.ts ∉ seen := hdisj a (List.mem_cons_self a l)
    rw [dedupFirst, if_neg (show ¬ seen.contains a.ts = true by simpa using ha)]
    rw [List.map_cons, List.nodup_cons] at hnd
    congr 1
    apply ih _ hnd.2
    intro b hb hmem
    rw [List.mem_cons] at hmem
    rcases hmem with h | h
    · exact hnd.1 (h ▸ List.mem_map_of_mem Bar.ts hb)
    · exact hdisj b (List.mem_cons_of_mem a hb) h

theorem insertBar_perm (b : Bar) (l : List Bar) : (insertBar b l).Perm (b :: l) := by
  induction l with
  | nil => simp [insertBar]
  | cons x xs ih =>
    simp only [insertBar]
    by_cases h : b.ts ≤ x.ts
    · simp [h]
    · rw [if_neg h]
      exact (ih.cons x).trans (List.Perm.swap b x xs)

theorem sortBars_perm (l : List Bar) : (sortBars l).Perm l := by
  induction l with
  | nil => simp [sortBars]
  | cons b bs ih =>
    simp only [sortBars]
    exact (insertBar_perm b (sortBars bs)).trans (ih.cons b)

theorem insertBar_sorted (b : Bar) (l : List Bar)
    (h : l.Pairwise (fun x y => x.ts ≤ y.ts)) :
    (insertBar b l).Pairwise (fun x y => x.ts ≤ y.ts) := by
  induction l with
  | nil => simp [insertBar]
  | cons x xs ih =>
    rw [List.pairwise_cons] at h
    simp only [insertBar]
    by_cases hbx : b.ts ≤ x.ts
    · rw [if_pos hbx, List.pairwise_cons]
      refine ⟨?_, List.pairwise_cons.mpr h⟩
      intro y hy
      rw [List.mem_cons] at hy
      rcases hy with rfl | hy
      · exact hbx
      · exact le_trans hbx (h.1 y hy)
    · rw [if_neg hbx, List.pairwise_cons]
      refine ⟨?_, ih h.2⟩
      intro y hy
      have h2 := (insertBar_perm b xs).mem_iff.mp hy
      rw [List.mem_cons] at h2
      rcases h2 with rfl | hmem
      · omega
      · exact h.1 y hmem

theorem sortBars_sorted (l : List Bar) :
    (sortBars l).Pairwise (fun x y => x.ts ≤ y.ts) := by
  induction l with
  | nil => simp [sortBars]
  | cons b bs ih =>
    simp only [sortBars]
    exact insertBar_sorted b _ ih

theorem sortBars_eq_self (l : List Bar)
    (h : l.Pairwise (fun x y => x.ts ≤ y.ts)) : sortBars l = l := by
  induction l with
  | nil => rfl
  | cons b bs ih =>
    rw [List.pairwise_cons] at h
    simp only [sortBars]
    rw [ih h.2]
    cases bs with
    | nil => rfl
    | cons x xs =>
      simp only [insertBar]
      rw [if_pos (h.1 x (List.mem_cons_self x xs))]

theorem sorted_lt_of_key_nodup (l : List Bar)
    (hs : l.Pairwise (fun x y => x.ts ≤ y.ts)) (hnd : (l.map Bar.ts).Nodup) :
    l.Pairwise (fun x y => x.ts < y.ts) := by
  have hne : l.Pairwise (fun x y => x.ts ≠ y.ts) := List.pairwise_map.mp hnd
  exact (hs.and hne).imp fun h => lt_of_le_of_ne h.1 h.2

/-- C2 counterexample: two chunks carrying the same timestamp with
different payloads merge differently under the two chunk orders, because
the duplicate-drop keeps the first occurrence. -/
theorem mergeChunks_chunk_order_matters :
    mergeChunks [[Bar.mk 1 10], [Bar.mk 1 20]] 0 5 ≠
      mergeChunks [[Bar.mk 1 20], [Bar.mk 1 10]] 0 5 := by decide

/-- C2 (amended): the merge step (concat, drop duplicate timestamps
keeping the first, sort by timestamp, clip to the window) is idempotent;
and it is invariant under permutation of the chunk order PROVIDED any two
bars sharing a timestamp across the chunks are equal — when chunks
disagree on a shared timestamp, keep-first makes the result depend on
chunk order. -/
theorem mergeChunks_idem_comm :
    (∀ (chunks : List (List Bar)) (lo hi : Int),
       mergeChunks [mergeChunks chunks lo hi] lo hi = mergeChunks chunks lo hi) ∧
    (∀ (c1 c2 : List (List Bar)) (lo hi : Int), c1.Perm c2 →
       (∀ a ∈ c1.flatten, ∀ b ∈ c1.flatten, a.ts = b.ts → a = b) →
       mergeChunks c1 lo hi = mergeChunks c2 lo hi) := by
  constructor
  · intro chunks lo hi
    set m := mergeChunks chunks lo hi with hm
    have hnd : (m.map Bar.ts).Nodup := by
      rw [hm]
      unfold mergeChunks
      have h1 := dedupFirst_key_nodup chunks.flatten []
      have h2 : ((sortBars (dedupFirst chunks.flatten [])).map Bar.ts).Nodup :=
        ((sortBars_perm _).map Bar.ts).nodup_iff.mpr h1
      exact List.Nodup.sublist ((List.filter_sublist _).map Bar.ts) h2
    have hsorted : m.Pairwise (fun x y => x.ts ≤ y.ts) := by
      rw [hm]
      unfold mergeChunks
      exact List.Pairwise.sublist (List.filter_sublist _) (sortBars_sorted _)
    have hfil : ∀ b ∈ m, (decide (lo ≤ b.ts ∧ b.ts ≤ hi)) = true := by
      intro b hb
      rw [hm] at hb
      unfold mergeChunks at hb
      exact (List.mem_filter.mp hb).2
    show mergeChunks [m] lo hi = m
    unfold mergeChunks
    rw [show ([m] : List (List Bar)).flatten = m by simp]
    rw [dedupFirst_eq_self m [] hnd (by intro b hb; simp)]
    rw [sortBars_eq_self m hsorted]
    exact List.filter_eq_self.mpr hfil
  · intro c1 c2 lo hi hperm hagree
    have hflat : c1.flatten.Perm c2.flatten := hperm.flatten
    have hagree2 : ∀ a ∈ c2.flatten, ∀ b ∈ c2.flatten, a.ts = b.ts → a = b := by
      intro a ha b hb
      exact hagree a (hflat.mem_iff.mpr ha) b (hflat.mem_iff.mpr hb)
    have hmem : ∀ b, b ∈ dedupFirst c1.flatten [] ↔ b ∈ dedupFirst c2.flatten [] := by
      intro b
      constructor
      · intro h
        have h1 := mem_dedupFirst c1.flatten [] b h
        exact mem_dedupFirst_of_agree c2.flatten hagree2 [] b (hflat.mem_iff.mp h1.1) (by simp)
      · intro h
        have h1 := mem_dedupFirst c2.flatten [] b h
        exact mem_dedupFirst_of_agree c1.flatten hagree [] b (hflat.mem_iff.mpr h1.1) (by simp)
    have hnd1 : ((dedupFirst c1.flatten []).map Bar.ts).Nodup := dedupFirst_key_nodup _ []
    have hnd2 : ((dedupFirst c2.flatten []).map Bar.ts).Nodup := dedupFirst_key_nodup _ []
    have hd : (dedupFirst c1.flatten []).Perm (dedupFirst c2.flatten []) := by
      apply List.Subperm.antisymm
      · exact (hnd1.of_map _).subperm fun b hb => (hmem b).mp hb
      · exact (hnd2.of_map _).subperm fun b hb => (hmem b).mpr hb
    have hs : sortBars (dedupFirst c1.flatten []) = sortBars (dedupFirst c2.flatten []) := by
      have hp : (sortBars (dedupFirst c1.flatten [])).Perm
          (sortBars (dedupFirst c2.flatten [])) :=
        ((sortBars_perm _).trans hd).trans (sortBars_perm _).symm
      haveI : IsAntisymm Bar (fun x y => x.ts < y.ts) :=
        ⟨fun a b h1 h2 => absurd (lt_trans h1 h2) (lt_irrefl _)⟩
      have hs1 : List.Sorted (fun x y : Bar => x.ts < y.ts)
          (sortBars (dedupFirst c1.flatten [])) :=
        sorted_lt_of_key_nodup _ (sortBars_sorted _)
          (((sortBars_perm _).map Bar.ts).nodup_iff.mpr hnd1)
      have hs2 : List.Sorted (fun x y : Bar => x.ts < y.ts)
          (sortBars (dedupFirst c2.flatten [])) :=
        sorted_lt_of_key_nodup _ (sortBars_sorted _)
          (((sortBars_perm _).map Bar.ts).nodup_iff.mpr hnd2)
      exact List.eq_of_perm_of_sorted hp hs1 hs2
    unfold mergeChunks
    rw [hs]

theorem mergeChunks_idem_comm_witness :
    mergeChunks [[Bar.mk 1 10], [Bar.mk 2 20]] 0 5 =
      mergeChunks [[Bar.mk 2 20], [Bar.mk 1 10]] 0 5 :=
  mergeChunks_idem_comm.2 [[Bar.mk 1 10], [Bar.mk 2 20]] [[Bar.mk 2 20], [Bar.mk 1 10]] 0 5
    (List.Perm.swap [Bar.mk 2 20] [Bar.mk 1 10] []) (by decide)

/-! ## Permanent auth failure (claim C6) -/

/-- With `_auth_failed` set, `__check_auth` returns `False` immediately,
sending nothing and leaving the state untouched. -/
theorem checkAuthF_failed (env : Env) (fuel conn : Nat) (st : AuthSt)
    (h : st.authFailed = true) : checkAuthF env fuel conn st = (false, [], st) := by
  cases fuel with
  | zero => rfl
  | succ fuel => simp [checkAuthF, h]

/-- On a marked engine, `_fetch_range` still generates ids and OPENS a
connection, then bails out with the empty frame before sending anything. -/
theorem fetchRangeT_failed (env : Env) (fuel : Nat) (sym : List Char) (st : AuthSt)
    (h : st.authFailed = true) :
    fetchRangeT env fuel sym st =
      (some emptyDf,
       [Ev.gen (generateSession env.letters st.rngPos)
          (generateChartSession env.letters (st.rngPos + 12)), Ev.connect],
       { authFailed := true, rngPos := st.rngPos + 24,
         session := generateSession env.letters st.rngPos,
         chartSession := generateChartSession env.letters (st.rngPos + 12),
         connCount := st.connCount + 1 }) := by
  simp [fetchRangeT, checkAuthF_failed, h]

/-- C6 counterexample: a fetch on the engine marked by the failed
recovery still performs network activity — it opens a fresh websocket
connection — contradicting "without attempting any network activity". -/
theorem fetchRange_after_failure_connects :
    Ev.connect ∈ (fetchRangeT envAuthFail 5 []
      (fetchRangeT envAuthFail 5 [] stClean).2.2).2.1 := by decide

/-- C6 (amended): when the auth check observes a rejection and the
recovery attempt fails, the engine marks itself permanently; every
subsequent fetch then returns the empty frame, and while it still opens
a websocket connection, it sends nothing on it (no auth message, no
handshake) and the mark survives, so every fetch in any subsequent
sequence of calls also returns the empty frame. -/
theorem authFailure_permanent :
    (∀ (env : Env) (fuel conn : Nat) (st : AuthSt), st.authFailed = false →
       env.rejectOnConn conn = true → env.recoverOk conn = false →
       checkAuthF env (fuel + 1) conn st =
         (false, [Ev.sendAuth], { st with authFailed := true })) ∧
    (∀ (env : Env) (fuel : Nat) (sym : List Char) (st : AuthSt), st.authFailed = true →
       (fetchRangeT env fuel sym st).1 = some emptyDf ∧
       (fetchRangeT env fuel sym st).2.1 =
         [Ev.gen (generateSession env.letters st.rngPos)
            (generateChartSession env.letters (st.rngPos + 12)), Ev.connect] ∧
       (fetchRangeT env fuel sym st).2.2.authFailed = true) ∧
    (∀ (env : Env) (fuel : Nat) (sym : List Char) (n : Nat) (st : AuthSt),
       st.authFailed = true →
       ∀ r ∈ (runFetchSeq env fuel sym n st).1, r = some emptyDf) := by
  have hfetch : ∀ (env : Env) (fuel : Nat) (sym : List Char) (st : AuthSt),
      st.authFailed = true →
      (fetchRangeT env fuel sym st).1 = some emptyDf ∧
      (fetchRangeT env fuel sym st).2.1 =
        [Ev.gen (generateSession env.letters st.rngPos)
           (generateChartSession env.letters (st.rngPos + 12)), Ev.connect] ∧
      (fetchRangeT env fuel sym st).2.2.authFailed = true := by
    intro env fuel sym st h
    rw [fetchRangeT_failed env fuel sym st h]
    exact ⟨rfl, rfl, rfl⟩
  refine ⟨?_, hfetch, ?_⟩
  · intro env fuel conn st h1 h2 h3
    simp [checkAuthF, h1, h2, h3]
  · intro env fuel sym n
    induction n with
    | zero => intro st h r hr; simp [runFetchSeq] at hr
    | succ n ih =>
      intro st h r hr
      simp only [runFetchSeq] at hr
      rw [List.mem_cons] at hr
      rcases hr with rfl | hr
      · exact (hfetch env fuel sym st h).1
      · exact ih (fetchRangeT env fuel sym st).2.2 (hfetch env fuel sym st h).2.2 r hr

theorem authFailure_permanent_witness :
    checkAuthF envAuthFail 1 0 stClean = (false, [Ev.sendAuth], { stClean with authFailed := true }) :=
  authFailure_permanent.1 envAuthFail 0 0 stClean rfl rfl rfl

/-! ## Session identity per connection (claim C8) -/

/-- `__check_auth` performs auth sends, closes and connects — it never
generates session ids and never sends a session-scoped message. -/
theorem checkAuthF_events (env : Env) :
    ∀ fuel conn st, ∀ ev ∈ (checkAuthF env fuel conn st).2.1,
      ev = Ev.sendAuth ∨ ev = Ev.close ∨ ev = Ev.connect := by
  intro fuel
  induction fuel with
  | zero => intro conn st ev h; simp [checkAuthF] at h
  | succ fuel ih =>
    intro conn st ev h
    by_cases h1 : st.authFailed = true
    · simp [checkAuthF, h1] at h
    · by_cases h2 : env.rejectOnConn conn = true
      · by_cases h3 : env.recoverOk conn = true
        · simp only [checkAuthF, h1, h2, h3] at h
          simp only [Bool.false_eq_true, if_false, if_true, List.mem_cons] at h
          rcases h with rfl | rfl | rfl | h
          · exact Or.inl rfl
          · exact Or.inr (Or.inl rfl)
          · exact Or.inr (Or.inr rfl)
          · exact ih (conn + 1) _ ev h
        · simp [checkAuthF, h1, h2, h3] at h
          exact Or.inl h
      · simp [checkAuthF, h1, h2] at h
        exact Or.inl h

/-- `__check_auth` never touches the RNG position. -/
theorem checkAuthF_rngPos (env : Env) :
    ∀ fuel conn st, (checkAuthF env fuel conn st).2.2.rngPos = st.rngPos := by
  intro fuel
  induction fuel with
  | zero => intro conn st; rfl
  | succ fuel ih =>
    intro conn st
    by_cases h1 : st.authFailed = true
    · simp [checkAuthF, h1]
    · by_cases h2 : env.rejectOnConn conn = true
      · by_cases h3 : env.recoverOk conn = true
        · simp only [checkAuthF, h1, h2, h3]
          simp only [Bool.false_eq_true, if_false, if_true]
          exact ih (conn + 1) _
        · simp [checkAuthF, h1, h2, h3]
      · simp [checkAuthF, h1, h2]

/-- Shape of one `_fetch_range` trace: it begins with exactly one fresh
id-pair generation followed by the connect, and the remainder contains no
generation and sends only under the freshly drawn pair. -/
theorem fetchRangeT_trace (env : Env) (fuel : Nat) (sym : List Char) (st : AuthSt) :
    ∃ rest, (fetchRangeT env fuel sym st).2.1 =
      Ev.gen (generateSession env.letters st.rngPos)
        (generateChartSession env.letters (st.rngPos + 12)) :: Ev.connect :: rest ∧
      (∀ ev ∈ rest, isGenEv ev = false) ∧
      (∀ m sid, Ev.send m sid ∈ rest →
        sid = generateSession env.letters st.rngPos ∨
        sid = generateChartSession env.letters (st.rngPos + 12)) := by
  simp only [fetchRangeT]
  set q := generateSession env.letters st.rngPos with hq
  set c := generateChartSession env.letters (st.rngPos + 12) with hc
  have hauth := checkAuthF_events env fuel st.connCount
    { authFailed := st.authFailed, rngPos := st.rngPos + 24,
      session := q, chartSession := c, connCount := st.connCount + 1 }
  by_cases ha : (checkAuthF env fuel st.connCount
    { authFailed := st.authFailed, rngPos := st.rngPos + 24,
      session := q, chartSession := c, connCount := st.connCount + 1 }).1 = true
  · rw [if_pos ha]
    refine ⟨_, rfl, ?_, ?_⟩
    · intro ev hev
      rw [List.mem_append, List.mem_append] at hev
      rcases hev with (hev | hev) | hev
      · rcases hauth ev hev with rfl | rfl | rfl <;> rfl
      · simp only [handshakeSends, List.mem_cons] at hev
        rcases hev with rfl | rfl | rfl | rfl | rfl | rfl | rfl | rfl | hev
        · rfl
        · rfl
        · rfl
        · rfl
        · rfl
        · rfl
        · rfl
        · rfl
        · simp at hev
      · rw [List.mem_singleton] at hev
        subst hev
        rfl
    · intro m sid hmem
      rw [List.mem_append, List.mem_append] at hmem
      rcases hmem with (hmem | hmem) | hmem
      · rcases hauth _ hmem with h | h | h <;> exact absurd h (by simp)
      · simp only [handshakeSends, List.mem_cons, Ev.send.injEq] at hmem
        rcases hmem with ⟨_, rfl⟩ | ⟨_, rfl⟩ | ⟨_, rfl⟩ | ⟨_, rfl⟩ | ⟨_, rfl⟩ | ⟨_, rfl⟩ |
          ⟨_, rfl⟩ | ⟨_, rfl⟩ | hmem
        · exact Or.inr rfl
        · exact Or.inl rfl
        · exact Or.inl rfl
        · exact Or.inl rfl
        · exact Or.inl rfl
        · exact Or.inr rfl
        · exact Or.inr rfl
        · exact Or.inr rfl
        · simp at hmem
      · rw [List.mem_singleton] at hmem
        exact absurd hmem (by simp)
  · rw [if_neg ha]
    refine ⟨_, rfl, ?_, ?_⟩
    · intro ev hev
      rcases hauth ev hev with rfl | rfl | rfl <;> rfl
    · intro m sid hmem
      rcases hauth _ hmem with h | h | h <;> exact absurd h (by simp)

/-- C8 counterexample: when an auth rejection is recovered mid-fetch, the
recreated connection is opened WITHOUT a fresh session-id pair —
`__check_auth` recreates the socket but never regenerates `self.session`
or `self.chart_session`. -/
theorem recoveredConnection_reuses_ids :
    freshPairPerConnection (fetchRangeT envRecover 5 [] stClean).2.1 = false := by decide

/-- C8 (amended): a fresh pair of session identifiers (fixed prefixes
plus 12 freshly drawn lowercase letters) is generated at the start of
every `_fetch_range` call — hence per-chunk retries each use a fresh
pair, and the RNG position advances by the 24 letters drawn so later
calls draw fresh letters — and every session-scoped send of the call
uses that pair.  However, within one call the connection recreated after
a successful auth recovery reuses the pair: no generation precedes its
connect, so the claim's "fresh pair per connection attempt, including
the recovery connection" fails exactly there. -/
theorem sessionIds_fresh_per_fetch :
    (∀ (env : Env) (fuel : Nat) (sym : List Char) (st : AuthSt),
       (fetchRangeT env fuel sym st).2.1.take 2 =
         [Ev.gen (generateSession env.letters st.rngPos)
            (generateChartSession env.letters (st.rngPos + 12)), Ev.connect] ∧
       (fetchRangeT env fuel sym st).2.2.rngPos = st.rngPos + 24 ∧
       (fetchRangeT env fuel sym st).2.1.countP isGenEv = 1 ∧
       (∀ m sid, Ev.send m sid ∈ (fetchRangeT env fuel sym st).2.1 →
          sid = generateSession env.letters st.rngPos ∨
          sid = generateChartSession env.letters (st.rngPos + 12))) ∧
    (∀ (env : Env) (fuel : Nat) (sym : List Char) (st : AuthSt),
       st.authFailed = false → env.rejectOnConn st.connCount = true →
       env.recoverOk st.connCount = true →
       freshPairPerConnection (fetchRangeT env (fuel + 1) sym st).2.1 = false) := by
  constructor
  · intro env fuel sym st
    obtain ⟨rest, htr, hgen, hsend⟩ := fetchRangeT_trace env fuel sym st
    refine ⟨?_, ?_, ?_, ?_⟩
    · rw [htr]; rfl
    · simp only [fetchRangeT]
      split
      · exact checkAuthF_rngPos env fuel st.connCount _
      · exact checkAuthF_rngPos env fuel st.connCount _
    · rw [htr]
      simp only [List.countP_cons]
      have h0 : rest.countP isGenEv = 0 := by
        rw [List.countP_eq_zero]
        intro ev hev
        simp [hgen ev hev]
      simp [h0, isGenEv]
    · intro m sid hmem
      rw [htr] at hmem
      rw [List.mem_cons, List.mem_cons] at hmem
      rcases hmem with h | h | h
      · exact absurd h (by simp)
      · exact absurd h (by simp)
      · exact hsend m sid h
  · intro env fuel sym st h1 h2 h3
    simp only [fetchRangeT, checkAuthF, h1, h2, h3]
    simp only [Bool.false_eq_true, if_false, if_true]
    split
    · simp [freshPairPerConnection, gensCoverConnects]
    · simp [freshPairPerConnection, gensCoverConnects]

theorem sessionIds_fresh_per_fetch_witness :
    (fetchRangeT envRecover 5 [] stClean).2.2.rngPos = 0 + 24 :=
  (sessionIds_fresh_per_fetch.1 envRecover 5 [] stClean).2.1

/-! ## Symbol-error handling (claim C5) -/

theorem packetRows_non_update (p : JVal) (h : isUpdatePacket p = false) :
    packetRows p = .ok [] := by
  simp [packetRows, h]

/-- C5 counterexample: a chunk whose fetch observes the symbol-error
frame produces the empty frame, and the scheduler runs all 3 attempts on
an empty chunk — it never makes fewer attempts for the symbol-error
kind, contradicting "does not retry that chunk". -/
theorem symbolError_chunk_retried :
    hasSub symbolErrorM serrRaw = true ∧
    fetchChunkDf [serrRaw] [] = some emptyDf ∧
    (chunkAttempts fun _ => emptyDf).2 = 3 := by
  refine ⟨rfl, rfl, rfl⟩

/-- C5 (amended): a symbol-error frame terminates the chunk's receive
loop at once (frames after it are never read) and — carrying no
bar-update packet — the chunk assembles to an empty series for that
attempt; but the scheduler does NOT distinguish this from a transient
empty response: any empty result is retried up to 3 attempts total. -/
theorem symbolError_empty_and_retried :
    (∀ r : List Char, hasSub symbolErrorM r = true → ∀ pre post,
       recvLoop (pre ++ r :: post) = recvLoop (pre ++ [r])) ∧
    (∀ (packets : List JVal) (symbol : List Char),
       (∀ p ∈ packets, isUpdatePacket p = false) →
       createDf packets symbol = some emptyDf) ∧
    (∀ f : Nat → Df, (f 1).rows = [] → (f 2).rows = [] → chunkAttempts f = (f 3, 3)) := by
  refine ⟨?_, ?_, ?_⟩
  · intro r h pre
    induction pre with
    | nil =>
      intro post
      simp [recvLoop, h]
    | cons x xs ih =>
      intro post
      simp only [List.cons_append, recvLoop]
      by_cases hx : (hasSub seriesCompletedM x || hasSub symbolErrorM x) = true
      · simp [hx]
      · simp [hx, ih post]
  · intro packets symbol h
    have hc : collectRows packets = .ok [] := by
      induction packets with
      | nil => rfl
      | cons p ps ih =>
        have h1 : packetRows p = .ok [] :=
          packetRows_non_update p (h p (List.mem_cons_self p ps))
        have h2 : collectRows ps = .ok [] :=
          ih fun q hq => h q (List.mem_cons_of_mem p hq)
        simp [collectRows, h1, h2]
    simp [createDf, hc]
  · intro f h1 h2
    exact chunkAttempts_allEmpty f h1 h2

theorem symbolError_empty_and_retried_witness :
    recvLoop ([] ++ serrRaw :: ["tail".toList]) = recvLoop ([] ++ [serrRaw]) :=
  symbolError_empty_and_retried.1 serrRaw rfl [] ["tail".toList]

/-! ## Bar assembly: symbol column and 5-element tuples (claim C10) -/

/-- C10: every non-empty assembled frame has `symbol` as its leading
column with the passed formatted-symbol string in every row, and a bar
tuple of exactly 5 elements (no volume field) is accepted with its
volume recorded as the numeric zero rather than skipped. -/
theorem createDf_symbol_col_and_five_tuple :
    (∀ (packets : List JVal) (symbol : List Char) (df : Df),
       createDf packets symbol = some df → df.rows ≠ [] →
       df.cols.head? = some ("symbol".toList) ∧
       ∀ row ∈ df.rows, row.head? = some (.str symbol)) ∧
    (∀ (t : Int) (w1 w2 w3 w4 : JVal),
       extractBar (.obj [(("v".toList), .arr [.num t, w1, w2, w3, w4])]) =
         some { ts := t, fields := [w1, w2, w3, w4, .num 0], oi := none }) := by
  constructor
  · intro packets symbol df hdf hne
    unfold createDf at hdf
    cases hcr : collectRows packets with
    | error e => rw [hcr] at hdf; exact absurd hdf (by simp)
    | ok rows =>
      rw [hcr] at hdf
      dsimp only at hdf
      by_cases hrows : rows.isEmpty = true
      · rw [if_pos hrows] at hdf
        injection hdf with hdf
        rw [← hdf] at hne
        exact absurd rfl hne
      · rw [if_neg hrows] at hdf
        injection hdf with hdf
        subst hdf
        constructor
        · rfl
        · intro row hrow
          rw [List.mem_map] at hrow
          obtain ⟨r, _, rfl⟩ := hrow
          rfl
  · intro t w1 w2 w3 w4
    rfl

/-! ## Frame codec round-trip (claim C1): numeric tokens -/

theorem digitChar_isDigit (k : Nat) (h : k < 10) : isDigitCh (digitChar k) = true := by
  interval_cases k <;> decide

theorem digitChar_digVal (k : Nat) (h : k < 10) : digVal (digitChar k) = k := by
  interval_cases k <;> decide

theorem digit_toNat (c : Char) (h : isDigitCh c = true) : 48 ≤ c.toNat ∧ c.toNat ≤ 57 := by
  simpa [isDigitCh] using h

theorem not_ws_of_digit (c : Char) (h : isDigitCh c = true) : isWs c = false := by
  have h2 := digit_toNat c h
  by_contra hne
  rw [Bool.not_eq_false] at hne
  simp only [isWs, Bool.or_eq_true, decide_eq_true_eq] at hne
  rcases hne with ((rfl | rfl) | rfl) | rfl <;> exact absurd h2 (by decide)

theorem takeDigitsAcc_stop (s : List Char) (a : Nat) (h : TokEnd s) :
    takeDigitsAcc s a = (a, s) := by
  cases s with
  | nil => rfl
  | cons c r => rcases h with rfl | rfl | rfl <;> rfl

theorem natCharsF_takeDigits :
    ∀ fuel n, n < fuel → ∀ rest a,
      takeDigitsAcc (natCharsF fuel n ++ rest) a =
        takeDigitsAcc rest (a * 10 ^ (natCharsF fuel n).length + n) := by
  intro fuel
  induction fuel with
  | zero => intro n h; omega
  | succ fuel ih =>
    intro n h rest a
    by_cases h10 : n < 10
    · simp only [natCharsF, if_pos h10, List.singleton_append, List.length_singleton, pow_one]
      rw [takeDigitsAcc, if_pos (digitChar_isDigit n h10), digitChar_digVal n h10]
    · simp only [natCharsF, if_neg h10]
      rw [List.append_assoc, ih (n / 10) (by omega), List.singleton_append,
        takeDigitsAcc, if_pos (digitChar_isDigit _ (by omega)), digitChar_digVal _ (by omega)]
      congr 1
      rw [List.length_append, List.length_singleton]
      have hdm : n / 10 * 10 + n % 10 = n := by omega
      calc (a * 10 ^ (natCharsF fuel (n / 10)).length + n / 10) * 10 + n % 10
          = a * (10 ^ (natCharsF fuel (n / 10)).length * 10) + (n / 10 * 10 + n % 10) := by ring
        _ = a * 10 ^ ((natCharsF fuel (n / 10)).length + 1) + n := by rw [hdm, pow_succ]

theorem natCharsF_head :
    ∀ fuel n, n < fuel → ∃ c cs, natCharsF fuel n = c :: cs ∧ isDigitCh c = true := by
  intro fuel
  induction fuel with
  | zero => intro n h; omega
  | succ fuel ih =>
    intro n h
    by_cases h10 : n < 10
    · exact ⟨digitChar n, [], by simp [natCharsF, h10], digitChar_isDigit n h10⟩
    · obtain ⟨c, cs, hc, hd⟩ := ih (n / 10) (by omega)
      refine ⟨c, cs ++ [digitChar (n % 10)], ?_, hd⟩
      simp [natCharsF, h10, hc]

theorem natChars_takeDigits (n : Nat) (rest : List Char) (a : Nat) :
    takeDigitsAcc (natChars n ++ rest) a =
      takeDigitsAcc rest (a * 10 ^ (natChars n).length + n) :=
  natCharsF_takeDigits (n + 1) n (by omega) rest a

theorem natChars_head (n : Nat) :
    ∃ c cs, natChars n = c :: cs ∧ isDigitCh c = true :=
  natCharsF_head (n + 1) n (by omega)

theorem pNum_natChars (n : Nat) (neg : Bool) (rest : List Char) (h : TokEnd rest) :
    pNum neg (natChars n ++ rest) =
      some (.num (if neg then -(n : Int) else (n : Int)), rest) := by
  obtain ⟨c, cs, hc, hdig⟩ := natChars_head n
  have ht : takeDigitsAcc (c :: (cs ++ rest)) 0 = (n, rest) := by
    have h2 := natChars_takeDigits n rest 0
    rw [hc, List.cons_append] at h2
    rw [h2, takeDigitsAcc_stop rest _ h]
    simp
  rw [hc, List.cons_append]
  simp only [pNum]
  rw [if_pos hdig, ← List.cons_append, ← hc]
  rw [hc, List.cons_append, ht]
  cases rest with
  | nil => rfl
  | cons c2 r2 => rcases h with rfl | rfl | rfl <;> rfl

/-! ## Frame codec round-trip (claim C1): string escapes -/

theorem hexVal_hexDigitCh (k : Nat) (h : k < 16) : hexVal (hexDigitCh k) = some k := by
  interval_cases k <;> decide

theorem parse4hex_hex4 (n : Nat) (h : n < 65536) (rest : List Char) :
    parse4hex (hex4 n ++ rest) = some (n, rest) := by
  simp only [hex4, List.cons_append, List.nil_append, parse4hex]
  rw [hexVal_hexDigitCh _ (by omega), hexVal_hexDigitCh _ (by omega),
      hexVal_hexDigitCh _ (by omega), hexVal_hexDigitCh _ (by omega)]
  dsimp only
  simp only [Option.some.injEq, Prod.mk.injEq]
  exact ⟨by omega, trivial⟩

theorem char_toNat_valid (c : Char) :
    c.toNat < 55296 ∨ (57343 < c.toNat ∧ c.toNat < 1114112) := by
  have h := c.valid
  have he : c.toNat = c.val.toNat := rfl
  rcases h with h | h
  · exact Or.inl h
  · exact Or.inr ⟨by omega, by omega⟩

set_option maxHeartbeats 1000000 in
theorem escChar_length_pos (c : Char) : 1 ≤ (escChar c).length := by
  unfold escChar
  split_ifs <;> simp [hex4]

theorem escStr_length (s : List Char) : s.length ≤ (escStr s).length := by
  induction s with
  | nil => simp [escStr]
  | cons c cs ih =>
    simp only [escStr, List.length_append, List.length_cons]
    have h := escChar_length_pos c
    omega

theorem uniEscape_bmp_gen (r2 : List Char) (n : Nat) (r3 : List Char)
    (hp : parse4hex r2 = some (n, r3)) (hs1 : ¬ (55296 ≤ n ∧ n ≤ 56319))
    (hs2 : ¬ (56320 ≤ n ∧ n ≤ 57343)) :
    uniEscape r2 = some (Char.ofNat n, r3) := by
  unfold uniEscape
  rw [hp]
  dsimp only
  rw [if_neg hs1, if_neg hs2]

theorem uniEscape_bmp (n : Nat) (h : n < 65536) (hs1 : ¬ (55296 ≤ n ∧ n ≤ 56319))
    (hs2 : ¬ (56320 ≤ n ∧ n ≤ 57343)) (rest : List Char) :
    uniEscape (hex4 n ++ rest) = some (Char.ofNat n, rest) :=
  uniEscape_bmp_gen (hex4 n ++ rest) n rest (parse4hex_hex4 n h rest) hs1 hs2

theorem uniEscape_pair_gen (r2 r4 : List Char) (n m : Nat) (rest : List Char)
    (hp1 : parse4hex r2 = some (n, '\\' :: 'u' :: r4))
    (hp2 : parse4hex r4 = some (m, rest))
    (hn : 55296 ≤ n ∧ n ≤ 56319) (hm : 56320 ≤ m ∧ m ≤ 57343) :
    uniEscape r2 = some (Char.ofNat (65536 + (n - 55296) * 1024 + (m - 56320)), rest) := by
  unfold uniEscape
  rw [hp1]
  simp only [hp2]
  rw [if_pos hn]
  rw [if_pos (show True ∧ True from ⟨trivial, trivial⟩), if_pos hm]

theorem uniEscape_pair (cp : Nat) (h1 : 65536 ≤ cp) (h2 : cp < 1114112) (rest : List Char) :
    uniEscape (hex4 (55296 + (cp - 65536) / 1024) ++
      ('\\' :: 'u' :: (hex4 (56320 + (cp - 65536) % 1024) ++ rest))) =
      some (Char.ofNat cp, rest) := by
  have h := uniEscape_pair_gen
    (hex4 (55296 + (cp - 65536) / 1024) ++
      ('\\' :: 'u' :: (hex4 (56320 + (cp - 65536) % 1024) ++ rest)))
    (hex4 (56320 + (cp - 65536) % 1024) ++ rest)
    (55296 + (cp - 65536) / 1024) (56320 + (cp - 65536) % 1024) rest
    (by rw [parse4hex_hex4 (55296 + (cp - 65536) / 1024) (by omega)])
    (parse4hex_hex4 (56320 + (cp - 65536) % 1024) (by omega) rest)
    (by omega) (by omega)
  rw [h]
  rw [show 65536 + (55296 + (cp - 65536) / 1024 - 55296) * 1024 +
    (56320 + (cp - 65536) % 1024 - 56320) = cp by omega]

theorem pStrBody_u (fuel : Nat) (r2 : List Char) :
    pStrBody (fuel+1) ('\\' :: 'u' :: r2) =
      (match uniEscape r2 with
      | some (ch, r3) => consFst ch (pStrBody fuel r3)
      | none => none) := rfl

theorem pStrBody_escStr :
    ∀ s fuel rest, s.length < fuel →
      pStrBody fuel (escStr s ++ '"' :: rest) = some (s, rest) := by
  intro s
  induction s with
  | nil =>
    intro fuel rest h
    cases fuel with
    | zero => omega
    | succ fuel => rfl
  | cons c cs ih =>
    intro fuel rest h
    cases fuel with
    | zero => omega
    | succ fuel =>
      have hcs : cs.length < fuel := by
        simp only [List.length_cons] at h
        omega
      have ihc := ih fuel rest hcs
      by_cases h1 : c = '"'
      · subst h1
        have hesc : escStr ('"' :: cs) = '\\' :: '"' :: escStr cs := by
          simp [escStr, escChar]
        rw [hesc, List.cons_append, List.cons_append]
        simp only [pStrBody]
        simp [ihc, consFst]
      · by_cases h2 : c = '\\'
        · subst h2
          have hesc : escStr ('\\' :: cs) = '\\' :: '\\' :: escStr cs := by
            simp [escStr, escChar]
          rw [hesc, List.cons_append, List.cons_append]
          simp only [pStrBody]
          simp [ihc, consFst]
        · by_cases h3 : c = '\n'
          · subst h3
            have hesc : escStr ('\n' :: cs) = '\\' :: 'n' :: escStr cs := by
              simp [escStr, escChar]
            rw [hesc, List.cons_append, List.cons_append]
            simp only [pStrBody]
            simp [ihc, consFst]
          · by_cases h4 : c = '\r'
            · subst h4
              have hesc : escStr ('\r' :: cs) = '\\' :: 'r' :: escStr cs := by
                simp [escStr, escChar]
              rw [hesc, List.cons_append, List.cons_append]
              simp only [pStrBody]
              simp [ihc, consFst]
            · by_cases h5 : c = '\t'
              · subst h5
                have hesc : escStr ('\t' :: cs) = '\\' :: 't' :: escStr cs := by
                  simp [escStr, escChar]
                rw [hesc, List.cons_append, List.cons_append]
                simp only [pStrBody]
                simp [ihc, consFst]
              · by_cases h6 : c.toNat = 8
                · have hesc : escStr (c :: cs) = '\\' :: 'b' :: escStr cs := by
                    simp [escStr, escChar, h1, h2, h3, h4, h5, h6]
                  rw [hesc, List.cons_append, List.cons_append]
                  simp only [pStrBody]
                  simp [ihc, consFst]
                  rw [← h6, Char.ofNat_toNat]
                · by_cases h7 : c.toNat = 12
                  · have hesc : escStr (c :: cs) = '\\' :: 'f' :: escStr cs := by
                      simp [escStr, escChar, h1, h2, h3, h4, h5, h6, h7]
                    rw [hesc, List.cons_append, List.cons_append]
                    simp only [pStrBody]
                    simp [ihc, consFst]
                    rw [← h7, Char.ofNat_toNat]
                  · by_cases h8 : c.toNat < 32
                    · have hesc : escStr (c :: cs) ++ '"' :: rest =
                          '\\' :: 'u' :: (hex4 c.toNat ++ (escStr cs ++ '"' :: rest)) := by
                        simp [escStr, escChar, h1, h2, h3, h4, h5, h6, h7, h8]
                      rw [hesc]
                      simp only [pStrBody]
                      simp only [uniEscape_bmp c.toNat (by omega) (by omega) (by omega)]
                      simp [ihc, consFst, Char.ofNat_toNat]
                    · by_cases h9 : c.toNat < 127
                      · have hesc : escStr (c :: cs) ++ '"' :: rest =
                            c :: (escStr cs ++ '"' :: rest) := by
                          simp [escStr, escChar, h1, h2, h3, h4, h5, h6, h7, h8, h9]
                        rw [hesc]
                        simp only [pStrBody]
                        rw [if_neg h1, if_neg h2, if_neg (show ¬ c.toNat < 32 from h8)]
                        simp [ihc, consFst]
                      · by_cases h10 : c.toNat < 65536
                        · have hns : ¬ (55296 ≤ c.toNat ∧ c.toNat ≤ 56319) ∧
                              ¬ (56320 ≤ c.toNat ∧ c.toNat ≤ 57343) := by
                            rcases char_toNat_valid c with hv | hv
                            · exact ⟨by omega, by omega⟩
                            · exact ⟨by omega, by omega⟩
                          have hesc : escStr (c :: cs) ++ '"' :: rest =
                              '\\' :: 'u' :: (hex4 c.toNat ++ (escStr cs ++ '"' :: rest)) := by
                            simp [escStr, escChar, h1, h2, h3, h4, h5, h6, h7, h8, h9, h10]
                          rw [hesc]
                          simp only [pStrBody]
                          simp only [uniEscape_bmp c.toNat (by omega) hns.1 hns.2]
                          simp [ihc, consFst, Char.ofNat_toNat]
                        · have hv : 57343 < c.toNat ∧ c.toNat < 1114112 := by
                            rcases char_toNat_valid c with hv | hv
                            · omega
                            · exact hv
                          have hesc : escStr (c :: cs) ++ '"' :: rest =
                              '\\' :: 'u' :: (hex4 (55296 + (c.toNat - 65536) / 1024) ++
                                ('\\' :: 'u' :: (hex4 (56320 + (c.toNat - 65536) % 1024) ++
                                  (escStr cs ++ '"' :: rest)))) := by
                            simp [escStr, escChar, h1, h2, h3, h4, h5, h6, h7, h8, h9, h10]
                          have hu := uniEscape_pair c.toNat (by omega) (by omega)
                            (escStr cs ++ '"' :: rest)
                          rw [hesc]
                          generalize hA : hex4 (55296 + (c.toNat - 65536) / 1024) ++
                              ('\\' :: 'u' :: (hex4 (56320 + (c.toNat - 65536) % 1024) ++
                                (escStr cs ++ '"' :: rest))) = A
                          rw [hA] at hu
                          rw [pStrBody_u]
                          rw [hu]
                          simp [ihc, consFst, Char.ofNat_toNat]

theorem skipWs_not_ws (c : Char) (r : List Char) (h : isWs c = false) :
    skipWs (c :: r) = c :: r := by
  simp [skipWs, h]

theorem pVal_null (fuel : Nat) (r : List Char) :
    pVal (fuel+1) ('n' :: 'u' :: 'l' :: 'l' :: r) = some (.null, r) := rfl

theorem pVal_true (fuel : Nat) (r : List Char) :
    pVal (fuel+1) ('t' :: 'r' :: 'u' :: 'e' :: r) = some (.bool true, r) := rfl

theorem pVal_false (fuel : Nat) (r : List Char) :
    pVal (fuel+1) ('f' :: 'a' :: 'l' :: 's' :: 'e' :: r) = some (.bool false, r) := rfl

theorem pVal_str (fuel : Nat) (r2 : List Char) :
    pVal (fuel+1) ('"' :: r2) =
      (match pStrBody (r2.length + 1) r2 with
      | some (t, r3) => some (.str t, r3)
      | none => none) := rfl

theorem pVal_neg (fuel : Nat) (r2 : List Char) :
    pVal (fuel+1) ('-' :: r2) = pNum true r2 := rfl

theorem pVal_arr (fuel : Nat) (r2 : List Char) :
    pVal (fuel+1) ('[' :: r2) = pArrStart fuel r2 := rfl

theorem pVal_obj (fuel : Nat) (r2 : List Char) :
    pVal (fuel+1) ('{' :: r2) = pObjStart fuel r2 := rfl

theorem pVal_digit (fuel : Nat) (c : Char) (r : List Char) (hd : isDigitCh c = true) :
    pVal (fuel+1) (c :: r) = pNum false (c :: r) := by
  have hw : isWs c = false := not_ws_of_digit c hd
  simp only [pVal, skipWs_not_ws c r hw]
  rw [if_pos hd]

theorem pArrStart_nil_arr (fuel : Nat) (r : List Char) :
    pArrStart (fuel+1) (']' :: r) = some (.arr [], r) := rfl

theorem pArrStart_cons (fuel : Nat) (c : Char) (r : List Char)
    (hw : isWs c = false) (hne : ¬ c = ']') :
    pArrStart (fuel+1) (c :: r) =
      (match pVal fuel (c :: r) with
      | some (v, r2) => pArrRest fuel [v] r2
      | none => none) := by
  simp only [pArrStart, skipWs_not_ws c r hw]
  rw [if_neg hne]

theorem pArrRest_comma (fuel : Nat) (acc : List JVal) (r : List Char) :
    pArrRest (fuel+1) acc (',' :: r) =
      (match pVal fuel r with
      | some (v, r2) => pArrRest fuel (acc ++ [v]) r2
      | none => none) := rfl

theorem pArrRest_close (fuel : Nat) (acc : List JVal) (r : List Char) :
    pArrRest (fuel+1) acc (']' :: r) = some (.arr acc, r) := rfl

theorem pObjStart_close (fuel : Nat) (r : List Char) :
    pObjStart (fuel+1) ('}' :: r) = some (.obj [], r) := rfl

theorem pObjStart_quote (fuel : Nat) (r : List Char) :
    pObjStart (fuel+1) ('"' :: r) = pObjKV fuel [] r := rfl

theorem pObjKV_step (fuel : Nat) (acc : List (List Char × JVal)) (s : List Char)
    (k : List Char) (r3 : List Char)
    (hps : pStrBody (s.length + 1) s = some (k, ':' :: r3)) :
    pObjKV (fuel+1) acc s =
      (match pVal fuel r3 with
      | some (v, r4) => pObjRest fuel (acc ++ [(k, v)]) r4
      | none => none) := by
  simp only [pObjKV, hps]
  rw [skipWs_not_ws ':' r3 (by decide)]
  rfl

theorem pObjRest_comma_quote (fuel : Nat) (acc : List (List Char × JVal)) (r2 : List Char) :
    pObjRest (fuel+1) acc (',' :: '"' :: r2) = pObjKV fuel acc r2 := rfl

theorem pObjRest_close (fuel : Nat) (acc : List (List Char × JVal)) (r : List Char) :
    pObjRest (fuel+1) acc ('}' :: r) = some (.obj acc, r) := rfl

theorem serVal_head_cons (v : JVal) :
    ∃ c cs, serVal v = c :: cs ∧ isWs c = false ∧ ¬ c = ']' := by
  cases v with
  | null => exact ⟨'n', ['u', 'l', 'l'], by simp [serVal], by decide, by decide⟩
  | bool b =>
    cases b with
    | true => exact ⟨'t', ['r', 'u', 'e'], by simp [serVal], by decide, by decide⟩
    | false => exact ⟨'f', ['a', 'l', 's', 'e'], by simp [serVal], by decide, by decide⟩
  | num n =>
    by_cases hn : n < 0
    · exact ⟨'-', natChars n.natAbs, by simp [serVal, intChars, hn], by decide, by decide⟩
    · obtain ⟨c, cs, hc, hd⟩ := natChars_head n.toNat
      refine ⟨c, cs, ?_, not_ws_of_digit c hd, ?_⟩
      · simp [serVal, intChars, hn, hc]
      · intro h
        subst h
        exact absurd hd (by decide)
  | str s => exact ⟨'"', escStr s ++ ['"'], by simp [serVal], by decide, by decide⟩
  | arr xs => exact ⟨'[', serArr xs ++ [']'], by simp [serVal], by decide, by decide⟩
  | obj kvs => exact ⟨'{', serObj kvs ++ ['}'], by simp [serVal], by decide, by decide⟩

theorem tokEnd_serArrTail (xs : List JVal) (rest : List Char) :
    TokEnd (serArrTail xs ++ ']' :: rest) := by
  cases xs with
  | nil => simp [serArrTail, TokEnd]
  | cons x xs => simp [serArrTail, TokEnd]

theorem tokEnd_serObjTail (kvs : List (List Char × JVal)) (rest : List Char) :
    TokEnd (serObjTail kvs ++ '}' :: rest) := by
  cases kvs with
  | nil => simp [serObjTail, TokEnd]
  | cons kv kvs => obtain ⟨k, v⟩ := kv; simp [serObjTail, TokEnd]

theorem serVal_roundtrip_all : ∀ fuel : Nat,
    (∀ v rest, TokEnd rest → 2 * (serVal v).length + 1 ≤ fuel →
      pVal fuel (serVal v ++ rest) = some (v, rest)) ∧
    (∀ xs rest, 2 * (serArr xs).length + 2 ≤ fuel →
      pArrStart fuel (serArr xs ++ ']' :: rest) = some (.arr xs, rest)) ∧
    (∀ xs acc rest, 2 * (serArrTail xs).length + 1 ≤ fuel →
      pArrRest fuel acc (serArrTail xs ++ ']' :: rest) = some (.arr (acc ++ xs), rest)) ∧
    (∀ kvs rest, 2 * (serObj kvs).length + 2 ≤ fuel →
      pObjStart fuel (serObj kvs ++ '}' :: rest) = some (.obj kvs, rest)) ∧
    (∀ k v kvs acc rest,
        2 * (serMember k v).length + 2 * (serObjTail kvs).length + 1 ≤ fuel →
        pObjKV fuel acc
          (escStr k ++ '"' :: ':' :: (serVal v ++ (serObjTail kvs ++ '}' :: rest))) =
          some (.obj (acc ++ (k, v) :: kvs), rest)) ∧
    (∀ kvs acc rest, 2 * (serObjTail kvs).length + 1 ≤ fuel →
      pObjRest fuel acc (serObjTail kvs ++ '}' :: rest) = some (.obj (acc ++ kvs), rest)) := by
  intro fuel
  induction fuel using Nat.strong_induction_on with
  | _ fuel ih =>
    cases fuel with
    | zero => refine ⟨?_, ?_, ?_, ?_, ?_, ?_⟩ <;> intros <;> omega
    | succ fuel =>
      obtain ⟨ihA, ihB, ihC, ihD, ihE, ihF⟩ := ih fuel (Nat.lt_succ_self fuel)
      refine ⟨?_, ?_, ?_, ?_, ?_, ?_⟩
      · intro v rest hte hb
        cases v with
        | null =>
          rw [show serVal JVal.null ++ rest = 'n' :: 'u' :: 'l' :: 'l' :: rest from by
            simp [serVal]]
          rw [pVal_null]
        | bool b =>
          cases b with
          | true =>
            rw [show serVal (JVal.bool true) ++ rest = 't' :: 'r' :: 'u' :: 'e' :: rest from by
              simp [serVal]]
            rw [pVal_true]
          | false =>
            rw [show serVal (JVal.bool false) ++ rest =
                'f' :: 'a' :: 'l' :: 's' :: 'e' :: rest from by simp [serVal]]
            rw [pVal_false]
        | num n =>
          by_cases hn : n < 0
          · rw [show serVal (JVal.num n) ++ rest = '-' :: (natChars n.natAbs ++ rest) from by
              simp [serVal, intChars, hn]]
            rw [pVal_neg, pNum_natChars n.natAbs true rest hte]
            simp
            rw [Int.abs_eq_natAbs]
            omega
          · obtain ⟨c, cs, hc, hd⟩ := natChars_head n.toNat
            rw [show serVal (JVal.num n) ++ rest = c :: (cs ++ rest) from by
              simp [serVal, intChars, hn, hc]]
            rw [pVal_digit fuel c (cs ++ rest) hd]
            rw [show c :: (cs ++ rest) = natChars n.toNat ++ rest from by rw [hc]; rfl]
            rw [pNum_natChars n.toNat false rest hte]
            have he : ((n.toNat : Nat) : Int) = n := by omega
            simp [he]
        | str s =>
          rw [show serVal (JVal.str s) ++ rest = '"' :: (escStr s ++ '"' :: rest) from by
            simp [serVal]]
          rw [pVal_str]
          rw [pStrBody_escStr s ((escStr s ++ '"' :: rest).length + 1) rest (by
            have hl := escStr_length s
            simp only [List.length_append, List.length_cons]
            omega)]
        | arr xs =>
          rw [show serVal (JVal.arr xs) ++ rest = '[' :: (serArr xs ++ ']' :: rest) from by
            simp [serVal]]
          have hlen : (serVal (JVal.arr xs)).length = (serArr xs).length + 2 := by
            simp [serVal]
          rw [pVal_arr, ihB xs rest (by omega)]
        | obj kvs =>
          rw [show serVal (JVal.obj kvs) ++ rest = '{' :: (serObj kvs ++ '}' :: rest) from by
            simp [serVal]]
          have hlen : (serVal (JVal.obj kvs)).length = (serObj kvs).length + 2 := by
            simp [serVal]
          rw [pVal_obj, ihD kvs rest (by omega)]
      · intro xs rest hb
        cases xs with
        | nil =>
          rw [show serArr ([] : List JVal) ++ ']' :: rest = ']' :: rest from by simp [serArr]]
          rw [pArrStart_nil_arr]
        | cons x xs =>
          obtain ⟨c, cs, hc, hw, hne⟩ := serVal_head_cons x
          rw [show serArr (x :: xs) ++ ']' :: rest =
              c :: (cs ++ (serArrTail xs ++ ']' :: rest)) from by simp [serArr, hc]]
          have hlen : (serArr (x :: xs)).length =
              (serVal x).length + (serArrTail xs).length := by
            simp [serArr]
          rw [pArrStart_cons fuel c _ hw hne]
          rw [show c :: (cs ++ (serArrTail xs ++ ']' :: rest)) =
              serVal x ++ (serArrTail xs ++ ']' :: rest) from by rw [hc]; rfl]
          rw [ihA x (serArrTail xs ++ ']' :: rest) (tokEnd_serArrTail xs rest) (by omega)]
          dsimp only
          rw [ihC xs [x] rest (by omega)]
          simp
      · intro xs acc rest hb
        cases xs with
        | nil =>
          rw [show serArrTail ([] : List JVal) ++ ']' :: rest = ']' :: rest from by
            simp [serArrTail]]
          rw [pArrRest_close]
          simp
        | cons x xs =>
          rw [show serArrTail (x :: xs) ++ ']' :: rest =
              ',' :: (serVal x ++ (serArrTail xs ++ ']' :: rest)) from by simp [serArrTail]]
          have hlen : (serArrTail (x :: xs)).length =
              (serVal x).length + (serArrTail xs).length + 1 := by
            simp only [serArrTail, List.length_cons, List.length_append]
          rw [pArrRest_comma]
          rw [ihA x (serArrTail xs ++ ']' :: rest) (tokEnd_serArrTail xs rest) (by omega)]
          dsimp only
          rw [ihC xs (acc ++ [x]) rest (by omega)]
          simp
      · intro kvs rest hb
        cases kvs with
        | nil =>
          rw [show serObj ([] : List (List Char × JVal)) ++ '}' :: rest = '}' :: rest from by
            simp [serObj]]
          rw [pObjStart_close]
        | cons kv kvs =>
          obtain ⟨k, v⟩ := kv
          rw [show serObj ((k, v) :: kvs) ++ '}' :: rest =
              '"' :: (escStr k ++ '"' :: ':' ::
                (serVal v ++ (serObjTail kvs ++ '}' :: rest))) from by
            simp [serObj, serMember]]
          have hlen : (serObj ((k, v) :: kvs)).length =
              (serMember k v).length + (serObjTail kvs).length := by
            simp [serObj]
          rw [pObjStart_quote]
          rw [ihE k v kvs [] rest (by omega)]
          simp
      · intro k v kvs acc rest hb
        have hps : pStrBody
            ((escStr k ++ '"' :: ':' ::
              (serVal v ++ (serObjTail kvs ++ '}' :: rest))).length + 1)
            (escStr k ++ '"' :: ':' :: (serVal v ++ (serObjTail kvs ++ '}' :: rest))) =
            some (k, ':' :: (serVal v ++ (serObjTail kvs ++ '}' :: rest))) :=
          pStrBody_escStr k _ _ (by
            have hl := escStr_length k
            simp only [List.length_append, List.length_cons]
            omega)
        rw [pObjKV_step fuel acc _ k _ hps]
        have hmem : (serMember k v).length = (escStr k).length + (serVal v).length + 3 := by
          simp only [serMember, List.length_cons, List.length_append]
          omega
        rw [ihA v (serObjTail kvs ++ '}' :: rest) (tokEnd_serObjTail kvs rest) (by omega)]
        dsimp only
        rw [ihF kvs (acc ++ [(k, v)]) rest (by omega)]
        simp
      · intro kvs acc rest hb
        cases kvs with
        | nil =>
          rw [show serObjTail ([] : List (List Char × JVal)) ++ '}' :: rest = '}' :: rest from by
            simp [serObjTail]]
          rw [pObjRest_close]
          simp
        | cons kv kvs =>
          obtain ⟨k, v⟩ := kv
          rw [show serObjTail ((k, v) :: kvs) ++ '}' :: rest =
              ',' :: '"' :: (escStr k ++ '"' :: ':' ::
                (serVal v ++ (serObjTail kvs ++ '}' :: rest))) from by
            simp [serObjTail, serMember]]
          have hlen : (serObjTail ((k, v) :: kvs)).length =
              (serMember k v).length + (serObjTail kvs).length + 1 := by
            simp only [serObjTail, List.length_cons, List.length_append]
          rw [pObjRest_comma_quote]
          exact ihE k v kvs acc rest (by omega)

theorem pVal_serVal (v : JVal) (rest : List Char) (hte : TokEnd rest) (fuel : Nat)
    (hb : 2 * (serVal v).length + 1 ≤ fuel) :
    pVal fuel (serVal v ++ rest) = some (v, rest) :=
  (serVal_roundtrip_all fuel).1 v rest hte hb

theorem jsonLoads_serVal (v : JVal) : jsonLoads (serVal v) = some v := by
  unfold jsonLoads
  have h := pVal_serVal v [] trivial (2 * (serVal v).length + 4) (by omega)
  rw [List.append_nil] at h
  rw [h]
  rfl

theorem takeDigitsAcc_not_digit (c : Char) (r : List Char) (a : Nat)
    (h : isDigitCh c = false) :
    takeDigitsAcc (c :: r) a = (a, c :: r) := by
  simp [takeDigitsAcc, h]

theorem matchFrameMarker_header (n : Nat) (r : List Char) :
    matchFrameMarker ('~' :: 'm' :: '~' :: (natChars n ++ '~' :: 'm' :: '~' :: r)) =
      some r := by
  obtain ⟨c, cs, hc, hd⟩ := natChars_head n
  rw [hc, List.cons_append]
  simp only [matchFrameMarker]
  rw [if_pos hd]
  have ht : takeDigitsAcc (c :: (cs ++ '~' :: 'm' :: '~' :: r)) 0 =
      (n, '~' :: 'm' :: '~' :: r) := by
    have h2 := natChars_takeDigits n ('~' :: 'm' :: '~' :: r) 0
    rw [hc, List.cons_append] at h2
    rw [h2, takeDigitsAcc_not_digit '~' _ _ (by decide)]
    simp
  rw [ht]
  rfl

theorem splitFramesF_step_marker (fuel : Nat) (c : Char) (cs acc rest : List Char)
    (h : matchFrameMarker (c :: cs) = some rest) :
    splitFramesF (fuel+1) (c :: cs) acc = acc.reverse :: splitFramesF fuel rest [] := by
  simp only [splitFramesF, h]

theorem splitFramesF_no_marker : ∀ fuel s acc, s.length < fuel → hasMarker s = false →
    splitFramesF fuel s acc = [acc.reverse ++ s] := by
  intro fuel
  induction fuel with
  | zero => intro s acc h _; omega
  | succ fuel ih =>
    intro s acc h hm
    cases s with
    | nil => simp [splitFramesF]
    | cons c cs =>
      cases hopt : matchFrameMarker (c :: cs) with
      | some rest =>
        exfalso
        unfold hasMarker at hm
        rw [hopt] at hm
        simp at hm
      | none =>
        have hcs : hasMarker cs = false := by
          unfold hasMarker at hm
          rw [hopt] at hm
          simpa using hm
        simp only [splitFramesF, hopt]
        rw [ih cs (c :: acc) (by simp only [List.length_cons] at h; omega) hcs]
        simp

theorem splitFrames_prependHeader (st : List Char) (h : hasMarker st = false) :
    splitFrames (prependHeader st) = [[], st] := by
  unfold splitFrames
  rw [show prependHeader st =
    '~' :: 'm' :: '~' :: (natChars st.length ++ '~' :: 'm' :: '~' :: st) from rfl]
  rw [splitFramesF_step_marker _ _ _ _ _ (matchFrameMarker_header st.length st)]
  rw [splitFramesF_no_marker _ st [] (by
    simp only [List.length_cons, List.length_append]
    omega) h]
  simp

/-- Claim C1 (amended): encoding a method and params with `__create_message`
and decoding the frame with `__parse_ws_packets` yields exactly the one
packet `{m: method, p: params}`, provided the compact JSON envelope does
not itself contain a `~m~<digits>~m~` frame-marker substring (when it
does, the splitter cuts the payload apart and the round-trip fails; see
the counterexample). -/
theorem createMessage_roundtrip (m : List Char) (ps : List JVal)
    (h : hasMarker (constructMessage m ps) = false) :
    parseWsPackets (createMessage m ps) =
      [JVal.obj [(['m'], JVal.str m), (['p'], JVal.arr ps)]] := by
  unfold parseWsPackets createMessage
  rw [splitFrames_prependHeader (constructMessage m ps) h]
  have hbody : constructMessage m ps =
      '{' :: (serObj [(['m'], JVal.str m), (['p'], JVal.arr ps)] ++ ['}']) := by
    simp [constructMessage, serVal]
  have hne : ¬ constructMessage m ps = [] := by
    rw [hbody]
    exact List.cons_ne_nil _ _
  have hhb : startsWithL heartbeatPre (constructMessage m ps) = false := by
    rw [hbody]
    rfl
  have hjl : jsonLoads (constructMessage m ps) =
      some (JVal.obj [(['m'], JVal.str m), (['p'], JVal.arr ps)]) :=
    jsonLoads_serVal (JVal.obj [(['m'], JVal.str m), (['p'], JVal.arr ps)])
  simp [List.filterMap_cons, hne, hhb, hjl]

/-- Counterexample to the unconditional C1 statement: a method name that
itself contains the frame marker `~m~1~m~` makes the regex split cut the
JSON payload into non-JSON fragments, so decoding yields no packet at
all instead of the original envelope. -/
theorem createMessage_marker_not_roundtrip :
    parseWsPackets (createMessage ['~', 'm', '~', '1', '~', 'm', '~'] []) = [] ∧
    ([] : List JVal) ≠
      [JVal.obj [(['m'], JVal.str ['~', 'm', '~', '1', '~', 'm', '~']),
        (['p'], JVal.arr [])]] := by
  constructor
  · have hbody : constructMessage ['~', 'm', '~', '1', '~', 'm', '~'] [] =
        ['{', '"', 'm', '"', ':', '"', '~', 'm', '~', '1', '~', 'm', '~', '"', ',',
         '"', 'p', '"', ':', '[', ']', '}'] := by
      simp [constructMessage, serVal, serObj, serObjTail, serMember, serArr, escStr, escChar]
    unfold createMessage
    rw [hbody]
    rfl
  · intro hcontra
    exact List.noConfusion hcontra

theorem createMessage_roundtrip_witness :
    hasMarker (constructMessage ['m'] []) = false ∧
    parseWsPackets (createMessage ['m'] []) =
      [JVal.obj [(['m'], JVal.str ['m']), (['p'], JVal.arr [])]] := by
  have hm : hasMarker (constructMessage ['m'] []) = false := by
    rw [show constructMessage ['m'] [] =
      ['{', '"', 'm', '"', ':', '"', 'm', '"', ',', '"', 'p', '"', ':', '[', ']', '}'] from by
      simp [constructMessage, serVal, serObj, serObjTail, serMember, serArr, escStr, escChar]]
    rfl
  exact ⟨hm, createMessage_roundtrip ['m'] [] hm⟩

theorem createDf_symbol_col_witness :
    (Df.mk ["symbol".toList, "open".toList, "high".toList, "low".toList, "close".toList,
        "volume".toList] [1]
        [[JVal.str ("NSE:X".toList), .num 2, .num 3, .num 4, .num 5, .num 0]]).cols.head? =
      some ("symbol".toList) :=
  (createDf_symbol_col_and_five_tuple.1 c10Packets ("NSE:X".toList)
    (Df.mk ["symbol".toList, "open".toList, "high".toList, "low".toList, "close".toList,
        "volume".toList] [1]
        [[JVal.str ("NSE:X".toList), .num 2, .num 3, .num 4, .num 5, .num 0]])
    rfl (by simp)).1

end Tv
